import Mathlib

/-!
Verification of the RIOT MTD (Memory Technology Device) generic dispatch and
address-translation layer, as specified by `drivers/include/mtd.h` and the
accompanying design specification.  The header only declares the layer's
contract; the dispatch logic itself (validation, page-boundary splitting,
erase-before-write emulation, bulk-erase fallback) is modelled here from the
specification, faithful to its words, as executable Lean definitions.

State is explicit: a device handle (geometry + capability descriptor +
initialization state), the device's byte contents, and a trace of every
backend call issued.  Backend behaviour is abstracted by a fault oracle in
the capability descriptor: for each call it either succeeds or returns a
given error.
-/

namespace Mtd

/-- Error taxonomy of the layer (spec section 7).  `NoDev` models `-ENODEV`
(invalid device handle), `OutOfRange` models `-EOVERFLOW`, `Unsupported`
models `-ENOTSUP`, `IOError` models `-EIO`, `Misaligned` and
`InvalidArgument` model `-EINVAL`-class failures, `NotReady` models an
operation attempted before successful init. -/
inductive MtdError where
  | NoDev
  | NotReady
  | Unsupported
  | OutOfRange
  | Misaligned
  | IOError
  | InvalidArgument
deriving DecidableEq, Repr

/-- MTD power states, from `enum mtd_power_state` in the header. -/
inductive mtd_power_state where
  | MTD_POWER_UP
  | MTD_POWER_DOWN
deriving DecidableEq, Repr

/-- A backend (driver) call, as recorded in the trace: the capability
invoked together with its addressing arguments (data payloads are carried by
the memory effect, not the trace). -/
inductive BackendCall where
  | initCall : BackendCall
  | read : Nat → Nat → BackendCall
  | write : Nat → Nat → BackendCall
  | erase_sector : Nat → Nat → BackendCall
  | power : mtd_power_state → BackendCall
deriving DecidableEq, Repr

/-- Capability descriptor (`struct mtd_desc`): which of the optional backend
operations are present (a `false` models a NULL function pointer, surfaced
as `Unsupported` at call time per spec section 6), the driver `flags` word,
and a fault oracle giving each backend call's outcome (`none` = success,
`some e` = the backend returns error `e`). -/
structure mtd_desc where
  has_init : Bool
  has_read : Bool
  has_write : Bool
  has_erase_sector : Bool
  has_power : Bool
  flags : Nat
  fault : BackendCall → Option MtdError

/-- `MTD_DRIVER_FLAG_DIRECT_WRITE` (bit 0 of `mtd_desc.flags`): the driver
can overwrite data without a prior erase. -/
def MTD_DRIVER_FLAG_DIRECT_WRITE : Nat := 1

/-- Initialization state of a device handle (spec section 3 lifecycle). -/
inductive InitState where
  | uninitialized
  | ready
  | faulted
deriving DecidableEq, Repr

/-- Device handle (`mtd_dev_t`): driver descriptor (`none` models a NULL
driver pointer), the three base geometry fields, presence of the
sector-sized scratch buffer `work_area` (only configured when the
`mtd_write_page` module is enabled), and the lifecycle state. -/
structure mtd_dev_t where
  driver : Option mtd_desc
  sector_count : Nat
  pages_per_sector : Nat
  page_size : Nat
  work_area : Bool
  init_state : InitState

/-- Derived geometry: size of a sector in bytes (spec section 3). -/
def mtd_dev_t.sector_size (d : mtd_dev_t) : Nat :=
  d.page_size * d.pages_per_sector

/-- Derived geometry: total device capacity in bytes (spec section 3). -/
def mtd_dev_t.capacity (d : mtd_dev_t) : Nat :=
  d.sector_size * d.sector_count

/-- Word width of address arithmetic: addresses and lengths are `uint32_t`. -/
def addrBound : Nat := 2 ^ 32

/-- Full state an operation acts on: the device handle (the C functions take
a mutable `mtd_dev_t *`, so the handle itself is part of the state), the
device's byte contents, and the trace of backend calls issued so far. -/
structure MtdState where
  dev : mtd_dev_t
  mem : List Nat
  trace : List BackendCall

/-- Value a backend erase leaves behind in every erased byte (erased state of
flash-style media, all-ones). -/
def eraseValue : Nat := 255

/-- Store the byte list `bs` into memory starting at index `a`
(out-of-bounds stores are dropped, as `List.set` is). -/
def storeBytes : List Nat → Nat → List Nat → List Nat
  | mem, _, [] => mem
  | mem, a, b :: bs => storeBytes (mem.set a b) (a + 1) bs

/-- Load `n` bytes from memory starting at index `a` (out-of-bounds reads
yield the erased value). -/
def loadBytes (mem : List Nat) : Nat → Nat → List Nat
  | _, 0 => []
  | a, n + 1 => mem.getD a eraseValue :: loadBytes mem (a + 1) n

/-- Dispatch one backend call through the capability descriptor: absent
capability surfaces as `Unsupported` without issuing a call (spec section 6);
otherwise the call is recorded in the trace and the fault oracle decides
whether it fails (state effect dropped on failure) or succeeds (memory
effect `eff` applied). -/
def callDriver (d : mtd_desc) (cap : Bool) (c : BackendCall)
    (eff : List Nat → List Nat) (s : MtdState) :
    Except MtdError Unit × MtdState :=
  if cap then
    let s1 : MtdState := { s with trace := s.trace ++ [c] }
    match d.fault c with
    | some e => (.error e, s1)
    | none => (.ok (), { s1 with mem := eff s1.mem })
  else (.error .Unsupported, s)

/-- Byte-range bounds check of the Bounds Validator (spec section 4.1):
fails if `addr + count` exceeds the capacity or overflows `uint32_t`. -/
def outOfBounds (d : mtd_dev_t) (addr count : Nat) : Bool :=
  decide (d.capacity < addr + count) || decide (addrBound ≤ addr + count)

/-- Sequencing of sub-steps of a multi-step operation: a failed sub-step
aborts the whole operation with that sub-step's error and the state the
sub-step left behind (spec section 7: abort on first sub-step failure, no
rollback); a successful sub-step passes its result and state on. -/
def andThen (p : Except MtdError α × MtdState)
    (f : α → MtdState → Except MtdError β × MtdState) :
    Except MtdError β × MtdState :=
  match p with
  | (.error e, s') => (.error e, s')
  | (.ok x, s') => f x s'

/-- Modelled from the spec: the splitting loop of the Raw Read Path (spec
section 4.2), whose C implementation (`mtd_read` body in `mtd.c`) is not in
the sources.  Repeatedly reads `min (page_size - addr % page_size) size`
bytes through the backend, accumulating the data, until the request is
exhausted, aborting on the first backend error.  `fuel` bounds the number of
iterations; each iteration consumes at least one byte, so `fuel = size`
suffices. -/
def read_go (d : mtd_desc) (ps : Nat) :
    Nat → MtdState → Nat → Nat → List Nat → Except MtdError (List Nat) × MtdState
  | 0, s, _, _, acc => (.ok acc, s)
  | fuel + 1, s, addr, size, acc =>
    if size = 0 then (.ok acc, s)
    else
      let c := min (ps - addr % ps) size
      match callDriver d d.has_read (.read addr c) id s with
      | (.error e, s') => (.error e, s')
      | (.ok _, s') =>
        read_go d ps fuel s' (addr + c) (size - c) (acc ++ loadBytes s'.mem addr c)

/-- Modelled from the spec: the splitting loop of the Raw Write Path (spec
section 4.3), whose C implementation (`mtd_write` / `mtd_write_page_raw`
bodies in `mtd.c`) is not in the sources.  Splits the request at page
boundaries (chunk size `min (page_size - addr % page_size) size`) so that no
single backend write call crosses a page boundary, aborting on the first
backend error. -/
def write_raw_go (d : mtd_desc) (ps : Nat) :
    Nat → MtdState → List Nat → Nat → Nat → Except MtdError Unit × MtdState
  | 0, s, _, _, _ => (.ok (), s)
  | fuel + 1, s, src, addr, size =>
    if size = 0 then (.ok (), s)
    else
      let c := min (ps - addr % ps) size
      match callDriver d d.has_write (.write addr c)
          (fun m => storeBytes m addr (src.take c)) s with
      | (.error e, s') => (.error e, s')
      | (.ok _, s') => write_raw_go d ps fuel s' (src.drop c) (addr + c) (size - c)

/-- Memory effect of a backend sector erase: bytes of sectors
`[sector, sector + count)` become the erased value. -/
def eraseEff (ss sector count : Nat) (m : List Nat) : List Nat :=
  storeBytes m (sector * ss) (List.replicate (count * ss) eraseValue)

/-- Modelled from the spec: the per-sector fallback loop of the Erase Path
(spec section 4.4), whose C implementation (`mtd_erase_sector` body in
`mtd.c`) is not in the sources.  Issues one-sector backend erase calls in
increasing sector order, aborting on the first backend error with no
further retry. -/
def erase_go (d : mtd_desc) (ss : Nat) :
    Nat → MtdState → Nat → Nat → Except MtdError Unit × MtdState
  | 0, s, _, _ => (.ok (), s)
  | fuel + 1, s, sector, count =>
    if count = 0 then (.ok (), s)
    else
      match callDriver d d.has_erase_sector (.erase_sector sector 1)
          (eraseEff ss sector 1) s with
      | (.error e, s') => (.error e, s')
      | (.ok _, s') => erase_go d ss fuel s' (sector + 1) (count - 1)

/-- Modelled from the spec: the backend-call core of the Erase Path (spec
section 4.4), whose C implementation is not in the sources.  A single bulk
sector-erase call is attempted first; if the backend itself rejects the bulk
call with `Unsupported`, the path falls back to a loop of one-sector calls
over the same range (one retry strategy change, no further retry); every
other backend error is passed through unchanged. -/
def do_erase_sector (d : mtd_desc) (ss : Nat) (s : MtdState) (sector num : Nat) :
    Except MtdError Unit × MtdState :=
  match callDriver d d.has_erase_sector (.erase_sector sector num)
      (eraseEff ss sector num) s with
  | (.error .Unsupported, s') =>
    if d.has_erase_sector then erase_go d ss num s' sector num
    else (.error .Unsupported, s')
  | r => r

/-- Modelled from the spec: `mtd_erase_sector` (declared in the header at
lines 412-426, body in `mtd.c` not in the sources).  Validates the device
handle, the lifecycle state and the sector range, then runs the Erase Path
core. -/
def mtd_erase_sector (s : MtdState) (sector num : Nat) :
    Except MtdError Unit × MtdState :=
  match s.dev.driver with
  | none => (.error .NoDev, s)
  | some d =>
    if s.dev.init_state ≠ .ready then (.error .NotReady, s)
    else if s.dev.sector_count < sector + num ∨ addrBound ≤ sector + num then
      (.error .OutOfRange, s)
    else do_erase_sector d s.dev.sector_size s sector num

/-- Modelled from the spec: `mtd_erase` (declared in the header at lines
394-410, body in `mtd.c` not in the sources).  Validates the handle and the
state, rejects out-of-range requests (Bounds Validator runs first, spec
section 2 data flow), rejects erase requests not sector-aligned or whose
length is not a positive multiple of the sector size with `Misaligned`
(spec section 4.4), then converts to `(first_sector, sector_count)` and
delegates to `mtd_erase_sector`. -/
def mtd_erase (s : MtdState) (addr count : Nat) : Except MtdError Unit × MtdState :=
  match s.dev.driver with
  | none => (.error .NoDev, s)
  | some _ =>
    if s.dev.init_state ≠ .ready then (.error .NotReady, s)
    else if outOfBounds s.dev addr count then (.error .OutOfRange, s)
    else if addr % s.dev.sector_size ≠ 0 ∨ count % s.dev.sector_size ≠ 0 then
      (.error .Misaligned, s)
    else if count = 0 then (.error .Misaligned, s)
    else mtd_erase_sector s (addr / s.dev.sector_size) (count / s.dev.sector_size)

/-- Modelled from the spec: `mtd_read` (declared in the header at lines
272-289, body in `mtd.c` not in the sources).  Validates handle, state and
byte range, then runs the Raw Read Path splitting loop. -/
def mtd_read (s : MtdState) (addr count : Nat) :
    Except MtdError (List Nat) × MtdState :=
  match s.dev.driver with
  | none => (.error .NoDev, s)
  | some d =>
    if s.dev.init_state ≠ .ready then (.error .NotReady, s)
    else if outOfBounds s.dev addr count then (.error .OutOfRange, s)
    else read_go d s.dev.page_size count s addr count []

/-- Modelled from the spec: `mtd_read_page` (declared in the header at lines
291-312, body in `mtd.c` not in the sources).  Page-addressed view of the
Raw Read Path: `offset` must be smaller than the page size, the resolved
byte address is `page * page_size + offset`. -/
def mtd_read_page (s : MtdState) (page offset size : Nat) :
    Except MtdError (List Nat) × MtdState :=
  match s.dev.driver with
  | none => (.error .NoDev, s)
  | some d =>
    if s.dev.init_state ≠ .ready then (.error .NotReady, s)
    else if s.dev.page_size ≤ offset then (.error .OutOfRange, s)
    else if outOfBounds s.dev (page * s.dev.page_size + offset) size then
      (.error .OutOfRange, s)
    else read_go d s.dev.page_size size s (page * s.dev.page_size + offset) size []

/-- Modelled from the spec: `mtd_write` (declared in the header at lines
314-335, body in `mtd.c` not in the sources).  Validates handle, state and
byte range, then runs the Raw Write Path splitting loop. -/
def mtd_write (s : MtdState) (src : List Nat) (addr count : Nat) :
    Except MtdError Unit × MtdState :=
  match s.dev.driver with
  | none => (.error .NoDev, s)
  | some d =>
    if s.dev.init_state ≠ .ready then (.error .NotReady, s)
    else if outOfBounds s.dev addr count then (.error .OutOfRange, s)
    else write_raw_go d s.dev.page_size count s src addr count

/-- Shared core of the page-addressed raw write (spec sections 4.1 and 4.3):
page-relative bounds check, byte-range bounds check, then the Raw Write
Path splitting loop at byte address `page * page_size + offset`. -/
def write_page_raw_core (d : mtd_desc) (s : MtdState) (src : List Nat)
    (page offset size : Nat) : Except MtdError Unit × MtdState :=
  if s.dev.page_size ≤ offset then (.error .OutOfRange, s)
  else if outOfBounds s.dev (page * s.dev.page_size + offset) size then
    (.error .OutOfRange, s)
  else write_raw_go d s.dev.page_size size s src (page * s.dev.page_size + offset) size

/-- Modelled from the spec: `mtd_write_page_raw` (declared in the header at
lines 337-362, body in `mtd.c` not in the sources).  Raw write with
pagewise addressing: no erase and no read-modify-write cycle is performed. -/
def mtd_write_page_raw (s : MtdState) (src : List Nat) (page offset size : Nat) :
    Except MtdError Unit × MtdState :=
  match s.dev.driver with
  | none => (.error .NoDev, s)
  | some d =>
    if s.dev.init_state ≠ .ready then (.error .NotReady, s)
    else write_page_raw_core d s src page offset size

/-- Modelled from the spec: one sector update of the Erase-Emulated Write
Path (spec section 4.5, body in `mtd.c` not in the sources): (a) read the
entire sector into the scratch buffer via the Raw Read Path, (b) overlay
the requested bytes at in-sector offset `off`, (c) erase the sector via the
Erase Path core, (d) write the full modified scratch buffer back via the
Raw Write Path.  Any sub-step failure aborts with that sub-step's error. -/
def write_sector_emulated (d : mtd_desc) (ps ss : Nat) (s : MtdState)
    (sec off : Nat) (data : List Nat) : Except MtdError Unit × MtdState :=
  andThen (read_go d ps ss s (sec * ss) ss []) fun buf s1 =>
    andThen (do_erase_sector d ss s1 sec 1) fun _ s2 =>
      write_raw_go d ps ss s2 (storeBytes buf off data) (sec * ss) ss

/-- Modelled from the spec: the sector loop of the Erase-Emulated Write Path
(spec section 4.5, body in `mtd.c` not in the sources): for each sector
touched by the request, in increasing address order, performs the
read-overlay-erase-write-back sequence, aborting on the first failure
without rolling back sectors already committed. -/
def write_page_go (d : mtd_desc) (ps ss : Nat) :
    Nat → MtdState → List Nat → Nat → Nat → Except MtdError Unit × MtdState
  | 0, s, _, _, _ => (.ok (), s)
  | fuel + 1, s, src, addr, size =>
    if size = 0 then (.ok (), s)
    else
      let c := min (ss - addr % ss) size
      andThen (write_sector_emulated d ps ss s (addr / ss) (addr % ss) (src.take c))
        fun _ s' => write_page_go d ps ss fuel s' (src.drop c) (addr + c) (size - c)

/-- Modelled from the spec: `mtd_write_page` (declared in the header at
lines 364-392, body in `mtd.c` not in the sources).  If the driver has
`MTD_DRIVER_FLAG_DIRECT_WRITE`, delegates straight to the raw write core
(no erase needed); otherwise requires the scratch buffer (`work_area`,
else `Unsupported`), validates the range and runs the erase-emulated
sector loop. -/
def mtd_write_page (s : MtdState) (src : List Nat) (page offset size : Nat) :
    Except MtdError Unit × MtdState :=
  match s.dev.driver with
  | none => (.error .NoDev, s)
  | some d =>
    if s.dev.init_state ≠ .ready then (.error .NotReady, s)
    else if d.flags &&& MTD_DRIVER_FLAG_DIRECT_WRITE ≠ 0 then
      write_page_raw_core d s src page offset size
    else if s.dev.work_area = false then (.error .Unsupported, s)
    else if s.dev.page_size ≤ offset then (.error .OutOfRange, s)
    else if outOfBounds s.dev (page * s.dev.page_size + offset) size then
      (.error .OutOfRange, s)
    else write_page_go d s.dev.page_size s.dev.sector_size size s src
      (page * s.dev.page_size + offset) size

/-- Modelled from the spec: `mtd_power` (declared in the header at lines
428-440, body in `mtd.c` not in the sources).  Fails `NotReady` before
successful init (spec section 4.6), otherwise pure forwarding to the
descriptor's power capability. -/
def mtd_power (s : MtdState) (p : mtd_power_state) : Except MtdError Unit × MtdState :=
  match s.dev.driver with
  | none => (.error .NoDev, s)
  | some d =>
    if s.dev.init_state ≠ .ready then (.error .NotReady, s)
    else callDriver d d.has_power (.power p) id s

/-- Modelled from the spec: `mtd_init` (declared in the header at lines
263-270, body in `mtd.c` not in the sources).  Forwards to the backend init
capability; success transitions the lifecycle state to `ready`, a backend
failure to `faulted` (spec section 3 lifecycle). -/
def mtd_init (s : MtdState) : Except MtdError Unit × MtdState :=
  match s.dev.driver with
  | none => (.error .NoDev, s)
  | some d =>
    if d.has_init = false then (.error .Unsupported, s)
    else
      let s1 : MtdState := { s with trace := s.trace ++ [.initCall] }
      match d.fault .initCall with
      | some e => (.error e, { s1 with dev := { s1.dev with init_state := .faulted } })
      | none => (.ok (), { s1 with dev := { s1.dev with init_state := .ready } })

/-- Modelled from the spec: device construction (spec section 3; the header
only declares the `mtd_dev_t` fields at lines 94-102).  A malformed
geometry (any zero base field) is rejected with `InvalidArgument`; a
successfully constructed device starts `uninitialized`. -/
def mk_mtd_dev (drv : mtd_desc) (sector_count pages_per_sector page_size : Nat)
    (work : Bool) : Except MtdError mtd_dev_t :=
  if sector_count = 0 ∨ pages_per_sector = 0 ∨ page_size = 0 then
    .error .InvalidArgument
  else
    .ok { driver := some drv, sector_count := sector_count,
          pages_per_sector := pages_per_sector, page_size := page_size,
          work_area := work, init_state := .uninitialized }

/-- Backend calls issued by the per-sector fallback loop of the Erase Path:
one one-sector erase call per sector, for `n` consecutive sectors starting
at `sector`, in increasing order. -/
def sectorCalls (sector : Nat) : Nat → List BackendCall
  | 0 => []
  | n + 1 => .erase_sector sector 1 :: sectorCalls (sector + 1) n

/-- Pure intended memory effect of the Erase-Emulated Write Path: for each
sector touched by the request in increasing address order, the sector's new
content is its old content overlaid with the request's bytes for that
sector (spec section 4.5 (a)-(d) collapsed to its net effect on a fault-free
backend). -/
def emulApply (ss : Nat) : Nat → List Nat → List Nat → Nat → Nat → List Nat
  | 0, mem, _, _, _ => mem
  | fuel + 1, mem, src, addr, size =>
    if size = 0 then mem
    else
      let c := min (ss - addr % ss) size
      emulApply ss fuel
        (storeBytes mem ((addr / ss) * ss)
          (storeBytes (loadBytes mem ((addr / ss) * ss) ss) (addr % ss) (src.take c)))
        (src.drop c) (addr + c) (size - c)

/-- A backend sub-call that does not abort a multi-step operation: either it
succeeded, or it is a bulk sector-erase call the backend rejected with
`Unsupported`, which triggers the one-time per-sector fallback instead of
aborting (spec sections 4.4 and 7). -/
def benignSubCall (d : mtd_desc) (c : BackendCall) : Prop :=
  d.fault c = none ∨
  ∃ a b, c = .erase_sector a b ∧ d.fault c = some .Unsupported

/-- Number of bytes committed by the backend write calls in a call list:
each successful `write _ n` sub-call of the raw write path commits exactly
its `n` bytes. -/
def writtenBytes : List BackendCall → Nat
  | [] => 0
  | .write _ n :: cs => n + writtenBytes cs
  | _ :: cs => writtenBytes cs

/-- The sector a backend call addresses, for a device with sector size
`ss`: byte-addressed reads and writes address the sector containing their
start address; sector-erase calls address their first sector. -/
def sectorOfCall (ss : Nat) : BackendCall → Nat
  | .read a _ => a / ss
  | .write a _ => a / ss
  | .erase_sector sec _ => sec
  | .initCall => 0
  | .power _ => 0

/-! ### Concrete devices used as test inputs -/

/-- Fully capable, fault-free backend descriptor. -/
def okDesc : mtd_desc :=
  { has_init := true, has_read := true, has_write := true,
    has_erase_sector := true, has_power := true, flags := 0,
    fault := fun _ => none }

/-- Fault-free backend descriptor with `MTD_DRIVER_FLAG_DIRECT_WRITE` set. -/
def directDesc : mtd_desc := { okDesc with flags := 1 }

/-- Backend whose bulk (count greater than one) sector-erase calls fail
`Unsupported`, forcing the per-sector fallback; everything else succeeds. -/
def bulkUnsupDesc : mtd_desc :=
  { okDesc with
    fault := fun c => match c with
      | .erase_sector _ n => if n = 1 then none else some .Unsupported
      | _ => none }

/-- Backend whose write calls at byte address 4 or above fail with an I/O
error; everything else succeeds. -/
def failWriteDesc : mtd_desc :=
  { okDesc with
    fault := fun c => match c with
      | .write a _ => if 4 ≤ a then some .IOError else none
      | _ => none }

/-- Backend whose read calls at byte address 2 or above fail with an I/O
error; everything else succeeds. -/
def failReadDesc : mtd_desc :=
  { okDesc with
    fault := fun c => match c with
      | .read a _ => if 2 ≤ a then some .IOError else none
      | _ => none }

/-- Backend whose bulk sector-erase calls fail `Unsupported` and whose
one-sector erase calls fail with an I/O error from sector 1 on. -/
def failEraseDesc : mtd_desc :=
  { okDesc with
    fault := fun c => match c with
      | .erase_sector sec n => if n = 1 then (if 1 ≤ sec then some .IOError else none)
                               else some .Unsupported
      | _ => none }

/-- Concrete device: page_size 256, one page per sector, two sectors
(capacity 512), ready. -/
def dev256 : mtd_dev_t :=
  { driver := some okDesc, sector_count := 2, pages_per_sector := 1,
    page_size := 256, work_area := true, init_state := .ready }

/-- State over `dev256` (memory content irrelevant to the traced calls). -/
def st256 : MtdState := { dev := dev256, mem := [], trace := [] }

/-- Concrete device: page_size 2, two pages per sector (sector_size 4),
four sectors (capacity 16), ready, scratch buffer configured. -/
def devE : mtd_dev_t :=
  { driver := some okDesc, sector_count := 4, pages_per_sector := 2,
    page_size := 2, work_area := true, init_state := .ready }

/-- State over `devE` with bytes `0..15`. -/
def stE : MtdState := { dev := devE, mem := List.range 16, trace := [] }

/-- `devE` before init. -/
def devU : mtd_dev_t := { devE with init_state := .uninitialized }

/-- State over `devU`. -/
def stU : MtdState := { dev := devU, mem := List.range 16, trace := [] }

/-- `devE` with a NULL driver descriptor. -/
def devNull : mtd_dev_t := { devE with driver := none }

/-- State over `devNull`. -/
def stNull : MtdState := { dev := devNull, mem := List.range 16, trace := [] }

/-- `devE` geometry over the bulk-erase-unsupported backend. -/
def stBulk : MtdState :=
  { dev := { devE with driver := some bulkUnsupDesc }, mem := List.range 16,
    trace := [] }

/-- `devE` geometry over the failing-write backend. -/
def stFailW : MtdState :=
  { dev := { devE with driver := some failWriteDesc }, mem := List.range 16,
    trace := [] }

/-- `devE` geometry over the failing-read backend. -/
def stFailR : MtdState :=
  { dev := { devE with driver := some failReadDesc }, mem := List.range 16,
    trace := [] }

/-- `devE` geometry over the failing-erase backend. -/
def stFailE : MtdState :=
  { dev := { devE with driver := some failEraseDesc }, mem := List.range 16,
    trace := [] }

/-- `devE` geometry over the direct-write backend. -/
def stDirect : MtdState :=
  { dev := { devE with driver := some directDesc }, mem := List.range 16,
    trace := [] }

/-- Device produced by a successful construction (used as a witness). -/
def devC5 : mtd_dev_t :=
  { driver := some okDesc, sector_count := 4, pages_per_sector := 2,
    page_size := 2, work_area := true, init_state := .uninitialized }

/-! ### Basic lemmas about the byte-memory model -/

theorem getD_set_ne (m : List Nat) (j i x d : Nat) (h : j ≠ i) :
    (m.set j x).getD i d = m.getD i d := by
  rw [List.getD_eq_getElem?_getD, List.getD_eq_getElem?_getD, List.getElem?_set_ne h]

theorem getD_set_eq (m : List Nat) (j x d : Nat) (h : j < m.length) :
    (m.set j x).getD j d = x := by
  rw [List.getD_eq_getElem?_getD, List.getElem?_set_eq_of_lt x h]
  rfl

theorem storeBytes_length (bs : List Nat) : ∀ (m : List Nat) (a : Nat),
    (storeBytes m a bs).length = m.length := by
  induction bs with
  | nil => intro m a; rfl
  | cons b bs ih =>
    intro m a
    rw [storeBytes, ih]
    exact List.length_set m a b

theorem storeBytes_getD_low (bs : List Nat) : ∀ (m : List Nat) (a i d : Nat),
    i < a → (storeBytes m a bs).getD i d = m.getD i d := by
  induction bs with
  | nil => intro m a i d _; rfl
  | cons b bs ih =>
    intro m a i d h
    rw [storeBytes, ih (m.set a b) (a + 1) i d (by omega),
      getD_set_ne m a i b d (by omega)]

theorem storeBytes_getD_high (bs : List Nat) : ∀ (m : List Nat) (a i d : Nat),
    a + bs.length ≤ i → (storeBytes m a bs).getD i d = m.getD i d := by
  induction bs with
  | nil => intro m a i d _; rfl
  | cons b bs ih =>
    intro m a i d h
    rw [List.length_cons] at h
    rw [storeBytes, ih (m.set a b) (a + 1) i d (by omega),
      getD_set_ne m a i b d (by omega)]

theorem storeBytes_getD_mid (bs : List Nat) : ∀ (m : List Nat) (a i d : Nat),
    a ≤ i → i < a + bs.length → i < m.length →
    (storeBytes m a bs).getD i d = bs.getD (i - a) d := by
  induction bs with
  | nil => intro m a i d _ h _; simp at h; omega
  | cons b bs ih =>
    intro m a i d h1 h2 h3
    rw [List.length_cons] at h2
    rcases Nat.eq_or_lt_of_le h1 with heq | hlt
    · subst heq
      rw [storeBytes, storeBytes_getD_low bs (m.set a b) (a + 1) a d (by omega),
        getD_set_eq m a b d h3]
      simp
    · have ha : a + 1 ≤ i := hlt
      rw [storeBytes, ih (m.set a b) (a + 1) i d ha (by omega)
        (by rw [List.length_set]; exact h3)]
      have : i - a = (i - (a + 1)) + 1 := by omega
      rw [this, List.getD_cons_succ]

theorem storeBytes_append (bs : List Nat) : ∀ (cs m : List Nat) (a : Nat),
    storeBytes m a (bs ++ cs) = storeBytes (storeBytes m a bs) (a + bs.length) cs := by
  induction bs with
  | nil => intro cs m a; simp [storeBytes]
  | cons b bs ih =>
    intro cs m a
    rw [List.cons_append, storeBytes, storeBytes, ih, List.length_cons]
    have : a + 1 + bs.length = a + (bs.length + 1) := by omega
    rw [this]

theorem loadBytes_length (n : Nat) : ∀ (m : List Nat) (a : Nat),
    (loadBytes m a n).length = n := by
  induction n with
  | zero => intro m a; rfl
  | succ k ih =>
    intro m a
    rw [loadBytes, List.length_cons, ih]

theorem loadBytes_getD (n : Nat) : ∀ (m : List Nat) (a i d : Nat), i < n →
    (loadBytes m a n).getD i d = m.getD (a + i) eraseValue := by
  induction n with
  | zero => intro _ _ _ _ h; omega
  | succ k ih =>
    intro m a i d h
    match i with
    | 0 => rw [loadBytes]; simp
    | j + 1 =>
      rw [loadBytes, List.getD_cons_succ, ih m (a + 1) j d (by omega)]
      have : a + 1 + j = a + (j + 1) := by omega
      rw [this]

theorem loadBytes_append (c : Nat) : ∀ (r : Nat) (m : List Nat) (a : Nat),
    loadBytes m a (c + r) = loadBytes m a c ++ loadBytes m (a + c) r := by
  induction c with
  | zero => intro r m a; simp [loadBytes]
  | succ k ih =>
    intro r m a
    have h1 : (k + 1) + r = (k + r) + 1 := by omega
    rw [h1, loadBytes, loadBytes, ih r m (a + 1), List.cons_append]
    have h2 : a + 1 + k = a + (k + 1) := by omega
    rw [h2]

/-! ### Dispatch lemmas -/

theorem callDriver_cases (d : mtd_desc) (cap : Bool) (c : BackendCall)
    (eff : List Nat → List Nat) (s : MtdState) :
    (cap = false ∧ callDriver d cap c eff s = (.error .Unsupported, s)) ∨
    (∃ e s', cap = true ∧ d.fault c = some e ∧
      callDriver d cap c eff s = (.error e, s') ∧
      s'.trace = s.trace ++ [c] ∧ s'.mem = s.mem ∧ s'.dev = s.dev) ∨
    (∃ s', cap = true ∧ d.fault c = none ∧
      callDriver d cap c eff s = (.ok (), s') ∧
      s'.trace = s.trace ++ [c] ∧ s'.mem = eff s.mem ∧ s'.dev = s.dev) := by
  cases cap with
  | false => exact Or.inl ⟨rfl, rfl⟩
  | true =>
    cases hf : d.fault c with
    | some e =>
      refine Or.inr (Or.inl ⟨e, { s with trace := s.trace ++ [c] }, rfl, rfl, ?_,
        rfl, rfl, rfl⟩)
      simp [callDriver, hf]
    | none =>
      refine Or.inr (Or.inr ⟨{ s with trace := s.trace ++ [c], mem := eff s.mem },
        rfl, rfl, ?_, rfl, rfl, rfl⟩)
      simp [callDriver, hf]

theorem andThen_error {α β : Type} (p : Except MtdError α × MtdState)
    (f : α → MtdState → Except MtdError β × MtdState) (e : MtdError) (s' : MtdState)
    (h : p = (.error e, s')) : andThen p f = (.error e, s') := by
  rw [h]
  rfl

theorem andThen_ok {α β : Type} (p : Except MtdError α × MtdState)
    (f : α → MtdState → Except MtdError β × MtdState) (x : α) (s' : MtdState)
    (h : p = (.ok x, s')) : andThen p f = f x s' := by
  rw [h]
  rfl

theorem andThen_error_apply {α β : Type}
    (f : α → MtdState → Except MtdError β × MtdState) (e : MtdError) (s' : MtdState) :
    andThen (.error e, s') f = (.error e, s') := rfl

theorem andThen_ok_apply {α β : Type}
    (f : α → MtdState → Except MtdError β × MtdState) (x : α) (s' : MtdState) :
    andThen (.ok x, s') f = f x s' := rfl

/-! ### Raw write loop lemmas -/

theorem write_raw_go_nocap (d : mtd_desc) (ps : Nat) (fuel : Nat) (s : MtdState)
    (src : List Nat) (addr size : Nat) (h : d.has_write = false) :
    (write_raw_go d ps fuel s src addr size).2 = s := by
  cases fuel with
  | zero => rfl
  | succ k =>
    rw [write_raw_go]
    by_cases hsz : size = 0
    · simp [hsz]
    · simp only [hsz, if_false]
      rcases callDriver_cases d d.has_write (.write addr (min (ps - addr % ps) size))
          (fun m => storeBytes m addr (src.take (min (ps - addr % ps) size))) s with
        ⟨hcap, heq⟩ | ⟨e, s', hcap, _, heq, _⟩ | ⟨s', hcap, _, heq, _⟩
      · rw [heq]
      · rw [h] at hcap; simp at hcap
      · rw [h] at hcap; simp at hcap

theorem write_raw_go_calls (d : mtd_desc) (ps : Nat) (hps : 0 < ps) :
    ∀ (fuel : Nat) (s : MtdState) (src : List Nat) (addr size : Nat),
    ∃ calls : List BackendCall,
      ((write_raw_go d ps fuel s src addr size).2).trace = s.trace ++ calls ∧
      ((write_raw_go d ps fuel s src addr size).2).dev = s.dev ∧
      ((write_raw_go d ps fuel s src addr size).2).dev.init_state = s.dev.init_state ∧
      ∀ c ∈ calls, ∃ a n, c = .write a n ∧ 0 < n ∧ a % ps + n ≤ ps := by
  intro fuel
  induction fuel with
  | zero =>
    intro s src addr size
    exact ⟨[], by simp [write_raw_go], rfl, rfl, by simp⟩
  | succ k ih =>
    intro s src addr size
    by_cases hsz : size = 0
    · exact ⟨[], by simp [write_raw_go, hsz], by simp [write_raw_go, hsz],
        by simp [write_raw_go, hsz], by simp⟩
    · rw [write_raw_go]
      simp only [hsz, if_false]
      have hc1 : 0 < min (ps - addr % ps) size := by
        have := Nat.mod_lt addr hps
        omega
      have hcpage : addr % ps + min (ps - addr % ps) size ≤ ps := by
        have := Nat.mod_lt addr hps
        omega
      rcases callDriver_cases d d.has_write (.write addr (min (ps - addr % ps) size))
          (fun m => storeBytes m addr (src.take (min (ps - addr % ps) size))) s with
        ⟨hcap, heq⟩ | ⟨e, s', hcap, hf, heq, htr, hmem, hdev⟩ |
        ⟨s', hcap, hf, heq, htr, hmem, hdev⟩
      · rw [heq]
        exact ⟨[], by simp, rfl, rfl, by simp⟩
      · rw [heq]
        refine ⟨[.write addr (min (ps - addr % ps) size)], by simp [htr], by simp [hdev],
          by simp [hdev], ?_⟩
        intro c hc
        simp at hc
        exact ⟨addr, min (ps - addr % ps) size, hc, hc1, hcpage⟩
      · rw [heq]
        obtain ⟨calls, htr2, hdev2, hini2, hcalls⟩ :=
          ih s' (src.drop (min (ps - addr % ps) size)) (addr + min (ps - addr % ps) size)
            (size - min (ps - addr % ps) size)
        refine ⟨.write addr (min (ps - addr % ps) size) :: calls, ?_,
          by simp [hdev2, hdev], by simp [hdev2, hdev], ?_⟩
        · rw [htr2, htr]
          simp
        · intro c hc
          rcases List.mem_cons.mp hc with hc | hc
          · exact ⟨addr, min (ps - addr % ps) size, hc, hc1, hcpage⟩
          · exact hcalls c hc

theorem write_raw_go_ok (d : mtd_desc) (ps : Nat) (hps : 0 < ps) :
    ∀ (fuel : Nat) (s : MtdState) (src : List Nat) (addr size : Nat),
    size ≤ fuel → size ≤ src.length →
    (write_raw_go d ps fuel s src addr size).1 = .ok () →
    ((write_raw_go d ps fuel s src addr size).2).mem
      = storeBytes s.mem addr (src.take size) := by
  intro fuel
  induction fuel with
  | zero =>
    intro s src addr size hfuel _ _
    have hz : size = 0 := Nat.le_zero.mp hfuel
    subst hz
    simp [write_raw_go, storeBytes]
  | succ k ih =>
    intro s src addr size hfuel hsrc hok
    by_cases hsz : size = 0
    · subst hsz
      simp [write_raw_go, storeBytes]
    · have hc1 : 0 < min (ps - addr % ps) size := by
        have := Nat.mod_lt addr hps
        omega
      have hcsz : min (ps - addr % ps) size ≤ size := Nat.min_le_right _ _
      rw [write_raw_go] at hok ⊢
      simp only [hsz, if_false] at hok ⊢
      rcases callDriver_cases d d.has_write (.write addr (min (ps - addr % ps) size))
          (fun m => storeBytes m addr (src.take (min (ps - addr % ps) size))) s with
        ⟨hcap, heq⟩ | ⟨e, s', hcap, hf, heq, htr, hmem, hdev⟩ |
        ⟨s', hcap, hf, heq, htr, hmem, hdev⟩
      · rw [heq] at hok
        simp at hok
      · rw [heq] at hok
        simp at hok
      · rw [heq] at hok ⊢
        simp only at hok ⊢
        have hlen : (List.take (min (ps - addr % ps) size) src).length
            = min (ps - addr % ps) size := by
          rw [List.length_take]
          omega
        have happ := storeBytes_append (src.take (min (ps - addr % ps) size))
          ((src.drop (min (ps - addr % ps) size)).take (size - min (ps - addr % ps) size))
          s.mem addr
        rw [hlen] at happ
        rw [ih s' (src.drop (min (ps - addr % ps) size))
          (addr + min (ps - addr % ps) size) (size - min (ps - addr % ps) size)
          (by omega) (by rw [List.length_drop]; omega) hok, hmem, ← happ,
          ← List.take_add]
        have harith : min (ps - addr % ps) size + (size - min (ps - addr % ps) size)
            = size := by omega
        rw [harith]

theorem write_raw_go_error (d : mtd_desc) (ps : Nat) (hps : 0 < ps)
    (hcap0 : d.has_write = true) :
    ∀ (fuel : Nat) (s : MtdState) (src : List Nat) (addr size : Nat) (e : MtdError),
    size ≤ src.length →
    (write_raw_go d ps fuel s src addr size).1 = .error e →
    ∃ (pre : List BackendCall) (cfail : BackendCall),
      ((write_raw_go d ps fuel s src addr size).2).trace = s.trace ++ (pre ++ [cfail]) ∧
      (∀ c ∈ pre, d.fault c = none) ∧
      d.fault cfail = some e ∧
      ((write_raw_go d ps fuel s src addr size).2).mem
        = storeBytes s.mem addr (src.take (writtenBytes pre)) ∧
      (∃ n, 0 < n ∧ cfail = .write (addr + writtenBytes pre) n ∧
        writtenBytes pre + n ≤ size) ∧
      ((write_raw_go d ps fuel s src addr size).2).dev = s.dev := by
  intro fuel
  induction fuel with
  | zero =>
    intro s src addr size e _ herr
    simp [write_raw_go] at herr
  | succ k ih =>
    intro s src addr size e hsrc herr
    by_cases hsz : size = 0
    · rw [write_raw_go] at herr
      simp [hsz] at herr
    · have hc1 : 0 < min (ps - addr % ps) size := by
        have := Nat.mod_lt addr hps
        omega
      have hcsz : min (ps - addr % ps) size ≤ size := Nat.min_le_right _ _
      rw [write_raw_go] at herr ⊢
      simp only [hsz, if_false] at herr ⊢
      rcases callDriver_cases d d.has_write (.write addr (min (ps - addr % ps) size))
          (fun m => storeBytes m addr (src.take (min (ps - addr % ps) size))) s with
        ⟨hcap, heq⟩ | ⟨e', s', hcap, hf, heq, htr, hmem, hdev⟩ |
        ⟨s', hcap, hf, heq, htr, hmem, hdev⟩
      · rw [hcap0] at hcap
        simp at hcap
      · rw [heq] at herr ⊢
        simp only at herr ⊢
        have he : e' = e := by
          simpa using herr
        refine ⟨[], .write addr (min (ps - addr % ps) size), ?_, by simp, ?_, ?_,
          ⟨min (ps - addr % ps) size, hc1, rfl, ?_⟩, hdev⟩
        · rw [htr]
          simp
        · rw [hf, he]
        · rw [hmem]
          simp [storeBytes, writtenBytes]
        · simp only [writtenBytes]
          omega
      · rw [heq] at herr ⊢
        simp only at herr ⊢
        obtain ⟨pre, cfail, htr2, hpre, hcf, hmem2, ⟨n, hn, hcfeq, hnle⟩, hdev2⟩ :=
          ih s' (src.drop (min (ps - addr % ps) size))
            (addr + min (ps - addr % ps) size) (size - min (ps - addr % ps) size) e
            (by rw [List.length_drop]; omega) herr
        have hlen : (List.take (min (ps - addr % ps) size) src).length
            = min (ps - addr % ps) size := by
          rw [List.length_take]
          omega
        refine ⟨.write addr (min (ps - addr % ps) size) :: pre, cfail,
          ?_, ?_, hcf, ?_, ⟨n, hn, ?_, ?_⟩, by rw [hdev2, hdev]⟩
        · rw [htr2, htr]
          simp
        · intro c hc
          rcases List.mem_cons.mp hc with hc | hc
          · rw [hc, hf]
          · exact hpre c hc
        · have happ := storeBytes_append (src.take (min (ps - addr % ps) size))
            ((src.drop (min (ps - addr % ps) size)).take (writtenBytes pre)) s.mem addr
          rw [hlen] at happ
          simp only [writtenBytes]
          rw [hmem2, hmem, ← happ, ← List.take_add]
        · rw [hcfeq]
          simp only [writtenBytes]
          have harr : addr + min (ps - addr % ps) size + writtenBytes pre
              = addr + (min (ps - addr % ps) size + writtenBytes pre) := by omega
          rw [harr]
        · simp only [writtenBytes]
          omega

/-! ### Raw read loop lemmas -/

theorem read_go_state (d : mtd_desc) (ps : Nat) :
    ∀ (fuel : Nat) (s : MtdState) (addr size : Nat) (acc : List Nat),
    ((read_go d ps fuel s addr size acc).2).mem = s.mem ∧
    ((read_go d ps fuel s addr size acc).2).dev = s.dev ∧
    ∃ calls : List BackendCall,
      ((read_go d ps fuel s addr size acc).2).trace = s.trace ++ calls ∧
      ∀ c ∈ calls, ∃ a n, c = .read a n := by
  intro fuel
  induction fuel with
  | zero =>
    intro s addr size acc
    refine ⟨rfl, rfl, [], ?_, by simp⟩
    simp [read_go]
  | succ k ih =>
    intro s addr size acc
    by_cases hsz : size = 0
    · subst hsz
      refine ⟨?_, ?_, [], ?_, by simp⟩ <;> simp [read_go]
    · rw [read_go]
      simp only [hsz, if_false]
      rcases callDriver_cases d d.has_read (.read addr (min (ps - addr % ps) size))
          id s with
        ⟨hcap, heq⟩ | ⟨e, s', hcap, hf, heq, htr, hmem, hdev⟩ |
        ⟨s', hcap, hf, heq, htr, hmem, hdev⟩
      · rw [heq]
        exact ⟨rfl, rfl, [], by simp, by simp⟩
      · rw [heq]
        refine ⟨by simp [hmem], by simp [hdev], [.read addr (min (ps - addr % ps) size)],
          by simp [htr], ?_⟩
        intro c hc
        simp at hc
        exact ⟨addr, min (ps - addr % ps) size, hc⟩
      · rw [heq]
        have hmem' : s'.mem = s.mem := by simpa using hmem
        obtain ⟨hmem2, hdev2, calls, htr2, hcalls⟩ :=
          ih s' (addr + min (ps - addr % ps) size) (size - min (ps - addr % ps) size)
            (acc ++ loadBytes s'.mem addr (min (ps - addr % ps) size))
        refine ⟨by rw [hmem2, hmem'], by rw [hdev2, hdev],
          .read addr (min (ps - addr % ps) size) :: calls, ?_, ?_⟩
        · rw [htr2, htr]
          simp
        · intro c hc
          rcases List.mem_cons.mp hc with hc | hc
          · exact ⟨addr, min (ps - addr % ps) size, hc⟩
          · exact hcalls c hc

theorem read_go_ok (d : mtd_desc) (ps : Nat) (hps : 0 < ps) :
    ∀ (fuel : Nat) (s : MtdState) (addr size : Nat) (acc : List Nat) (res : List Nat),
    size ≤ fuel →
    (read_go d ps fuel s addr size acc).1 = .ok res →
    res = acc ++ loadBytes s.mem addr size := by
  intro fuel
  induction fuel with
  | zero =>
    intro s addr size acc res hfuel hok
    have hz : size = 0 := Nat.le_zero.mp hfuel
    subst hz
    simp [read_go, loadBytes] at hok ⊢
    simp [hok.symm]
  | succ k ih =>
    intro s addr size acc res hfuel hok
    by_cases hsz : size = 0
    · subst hsz
      simp [read_go, loadBytes] at hok ⊢
      simp [hok.symm]
    · have hc1 : 0 < min (ps - addr % ps) size := by
        have := Nat.mod_lt addr hps
        omega
      rw [read_go] at hok
      simp only [hsz, if_false] at hok
      rcases callDriver_cases d d.has_read (.read addr (min (ps - addr % ps) size))
          id s with
        ⟨hcap, heq⟩ | ⟨e, s', hcap, hf, heq, htr, hmem, hdev⟩ |
        ⟨s', hcap, hf, heq, htr, hmem, hdev⟩
      · rw [heq] at hok
        simp at hok
      · rw [heq] at hok
        simp at hok
      · rw [heq] at hok
        simp only at hok
        have := ih s' (addr + min (ps - addr % ps) size)
          (size - min (ps - addr % ps) size)
          (acc ++ loadBytes s'.mem addr (min (ps - addr % ps) size)) res
          (by omega) hok
        rw [this, hmem, List.append_assoc, ← loadBytes_append]
        have harith : min (ps - addr % ps) size + (size - min (ps - addr % ps) size)
            = size := by omega
        rw [harith]
        rfl

theorem read_go_error (d : mtd_desc) (ps : Nat) (hps : 0 < ps)
    (hcap0 : d.has_read = true) :
    ∀ (fuel : Nat) (s : MtdState) (addr size : Nat) (acc : List Nat) (e : MtdError),
    (read_go d ps fuel s addr size acc).1 = .error e →
    ∃ (pre : List BackendCall) (cfail : BackendCall),
      ((read_go d ps fuel s addr size acc).2).trace = s.trace ++ (pre ++ [cfail]) ∧
      (∀ c ∈ pre, d.fault c = none) ∧
      d.fault cfail = some e ∧
      ∃ a n, cfail = .read a n ∧ 0 < n ∧ addr ≤ a ∧ a + n ≤ addr + size := by
  intro fuel
  induction fuel with
  | zero =>
    intro s addr size acc e herr
    simp [read_go] at herr
  | succ k ih =>
    intro s addr size acc e herr
    by_cases hsz : size = 0
    · rw [read_go] at herr
      simp [hsz] at herr
    · have hc1 : 0 < min (ps - addr % ps) size := by
        have := Nat.mod_lt addr hps
        omega
      rw [read_go] at herr ⊢
      simp only [hsz, if_false] at herr ⊢
      rcases callDriver_cases d d.has_read (.read addr (min (ps - addr % ps) size))
          id s with
        ⟨hcap, heq⟩ | ⟨e', s', hcap, hf, heq, htr, hmem, hdev⟩ |
        ⟨s', hcap, hf, heq, htr, hmem, hdev⟩
      · rw [hcap0] at hcap
        simp at hcap
      · rw [heq] at herr ⊢
        simp only at herr ⊢
        have he : e' = e := by
          simpa using herr
        refine ⟨[], .read addr (min (ps - addr % ps) size), ?_, by simp, ?_,
          addr, min (ps - addr % ps) size, rfl, hc1, le_refl addr, by omega⟩
        · rw [htr]
          simp
        · rw [hf, he]
      · rw [heq] at herr ⊢
        simp only at herr ⊢
        obtain ⟨pre, cfail, htr2, hpre, hcf, a, n, hcfeq, hn, ha1, ha2⟩ :=
          ih s' (addr + min (ps - addr % ps) size) (size - min (ps - addr % ps) size)
            (acc ++ loadBytes s'.mem addr (min (ps - addr % ps) size)) e herr
        refine ⟨.read addr (min (ps - addr % ps) size) :: pre, cfail, ?_, ?_, hcf,
          a, n, hcfeq, hn, by omega, by omega⟩
        · rw [htr2, htr]
          simp
        · intro c hc
          rcases List.mem_cons.mp hc with hc | hc
          · rw [hc, hf]
          · exact hpre c hc

theorem read_go_nocap (d : mtd_desc) (ps : Nat) (fuel : Nat) (s : MtdState)
    (addr size : Nat) (acc : List Nat) (h : d.has_read = false) :
    (read_go d ps fuel s addr size acc).2 = s := by
  cases fuel with
  | zero => rfl
  | succ k =>
    rw [read_go]
    by_cases hsz : size = 0
    · simp [hsz]
    · simp only [hsz, if_false]
      rcases callDriver_cases d d.has_read (.read addr (min (ps - addr % ps) size))
          id s with
        ⟨hcap, heq⟩ | ⟨e, s', hcap, _, heq, _⟩ | ⟨s', hcap, _, heq, _⟩
      · rw [heq]
      · rw [h] at hcap; simp at hcap
      · rw [h] at hcap; simp at hcap

/-! ### Erase path lemmas -/

theorem eraseEff_chain (m : List Nat) (ss sector j : Nat) :
    storeBytes (eraseEff ss sector 1 m) ((sector + 1) * ss)
      (List.replicate (j * ss) eraseValue)
      = storeBytes m (sector * ss) (List.replicate ((j + 1) * ss) eraseValue) := by
  have happ := storeBytes_append (List.replicate (1 * ss) eraseValue)
    (List.replicate (j * ss) eraseValue) m (sector * ss)
  rw [List.length_replicate] at happ
  have h1 : sector * ss + 1 * ss = (sector + 1) * ss := by ring
  rw [h1] at happ
  rw [eraseEff, ← happ, ← List.replicate_add]
  have h2 : 1 * ss + j * ss = (j + 1) * ss := by ring
  rw [h2]

theorem erase_go_spec (d : mtd_desc) (ss : Nat) (hcap0 : d.has_erase_sector = true) :
    ∀ (fuel : Nat) (s : MtdState) (sector num : Nat), num ≤ fuel →
    ((erase_go d ss fuel s sector num).2).dev = s.dev ∧
    ∃ j : Nat, j ≤ num ∧
      (∀ i, i < j → d.fault (.erase_sector (sector + i) 1) = none) ∧
      (((erase_go d ss fuel s sector num).1 = .ok () ∧ j = num ∧
        ((erase_go d ss fuel s sector num).2).trace
          = s.trace ++ sectorCalls sector num ∧
        ((erase_go d ss fuel s sector num).2).mem
          = storeBytes s.mem (sector * ss) (List.replicate (num * ss) eraseValue)) ∨
       (j < num ∧ ∃ e, d.fault (.erase_sector (sector + j) 1) = some e ∧
        (erase_go d ss fuel s sector num).1 = .error e ∧
        ((erase_go d ss fuel s sector num).2).trace
          = s.trace ++ sectorCalls sector (j + 1) ∧
        ((erase_go d ss fuel s sector num).2).mem
          = storeBytes s.mem (sector * ss) (List.replicate (j * ss) eraseValue))) := by
  intro fuel
  induction fuel with
  | zero =>
    intro s sector num hfuel
    have hz : num = 0 := Nat.le_zero.mp hfuel
    subst hz
    refine ⟨rfl, 0, le_refl 0, by omega, Or.inl ⟨rfl, rfl, ?_, ?_⟩⟩
    · simp [erase_go, sectorCalls]
    · simp [erase_go, storeBytes]
  | succ k ih =>
    intro s sector num hfuel
    by_cases hnum : num = 0
    · subst hnum
      refine ⟨by simp [erase_go], 0, le_refl 0, by omega, Or.inl ⟨by simp [erase_go],
        rfl, ?_, ?_⟩⟩
      · simp [erase_go, sectorCalls]
      · simp [erase_go, storeBytes]
    · rw [erase_go]
      simp only [hnum, if_false]
      rcases callDriver_cases d d.has_erase_sector (.erase_sector sector 1)
          (eraseEff ss sector 1) s with
        ⟨hcap, heq⟩ | ⟨e, s', hcap, hf, heq, htr, hmem, hdev⟩ |
        ⟨s', hcap, hf, heq, htr, hmem, hdev⟩
      · rw [hcap0] at hcap
        simp at hcap
      · rw [heq]
        refine ⟨hdev, 0, by omega, by omega, Or.inr ⟨by omega, e, by simpa using hf,
          rfl, ?_, ?_⟩⟩
        · rw [htr]
          simp [sectorCalls]
        · rw [hmem]
          simp [storeBytes]
      · rw [heq]
        obtain ⟨hdev2, j', hj', hnone, hcases⟩ :=
          ih s' (sector + 1) (num - 1) (by omega)
        refine ⟨by rw [hdev2, hdev], j' + 1, by omega, ?_, ?_⟩
        · intro i hi
          match i with
          | 0 => simpa using hf
          | i' + 1 =>
            have := hnone i' (by omega)
            have harith : sector + 1 + i' = sector + (i' + 1) := by omega
            rw [harith] at this
            exact this
        · rcases hcases with ⟨hok, hjeq, htr2, hmem2⟩ | ⟨hlt, e, hfj, herr, htr2, hmem2⟩
          · refine Or.inl ⟨hok, by omega, ?_, ?_⟩
            · rw [htr2, htr]
              have hnum1 : num = (num - 1) + 1 := by omega
              rw [hnum1, sectorCalls]
              simp
            · rw [hmem2, hmem, eraseEff_chain]
              have harith : num - 1 + 1 = num := by omega
              rw [harith]
          · refine Or.inr ⟨by omega, e, ?_, herr, ?_, ?_⟩
            · have harith : sector + (j' + 1) = sector + 1 + j' := by omega
              rw [harith]
              exact hfj
            · rw [htr2, htr]
              simp [sectorCalls]
            · rw [hmem2, hmem, eraseEff_chain]

theorem MtdState.ext_eq (a b : MtdState) (h1 : a.dev = b.dev) (h2 : a.mem = b.mem)
    (h3 : a.trace = b.trace) : a = b := by
  cases a
  cases b
  simp_all

theorem do_erase_sector_nocap (d : mtd_desc) (ss : Nat) (s : MtdState)
    (sector num : Nat) (h : d.has_erase_sector = false) :
    do_erase_sector d ss s sector num = (.error .Unsupported, s) := by
  simp [do_erase_sector, callDriver, h]

theorem do_erase_sector_bulk_ok (d : mtd_desc) (ss : Nat) (s : MtdState)
    (sector num : Nat) (hcap0 : d.has_erase_sector = true)
    (hf : d.fault (.erase_sector sector num) = none) :
    do_erase_sector d ss s sector num =
      (.ok (), { s with mem := eraseEff ss sector num s.mem,
                        trace := s.trace ++ [.erase_sector sector num] }) := by
  rcases callDriver_cases d d.has_erase_sector (.erase_sector sector num)
      (eraseEff ss sector num) s with
    ⟨hcap, heq⟩ | ⟨e, s', hcap, hf2, heq, htr, hmem, hdev⟩ |
    ⟨s', hcap, hf2, heq, htr, hmem, hdev⟩
  · rw [hcap0] at hcap
    simp at hcap
  · rw [hf] at hf2
    cases hf2
  · have hstate : s' = { s with mem := eraseEff ss sector num s.mem,
                                trace := s.trace ++ [.erase_sector sector num] } :=
      MtdState.ext_eq _ _ hdev hmem htr
    rw [do_erase_sector, heq, hstate]

theorem do_erase_sector_bulk_error (d : mtd_desc) (ss : Nat) (s : MtdState)
    (sector num : Nat) (e : MtdError) (hcap0 : d.has_erase_sector = true)
    (hf : d.fault (.erase_sector sector num) = some e) (hne : e ≠ .Unsupported) :
    do_erase_sector d ss s sector num =
      (.error e, { s with trace := s.trace ++ [.erase_sector sector num] }) := by
  rcases callDriver_cases d d.has_erase_sector (.erase_sector sector num)
      (eraseEff ss sector num) s with
    ⟨hcap, heq⟩ | ⟨e', s', hcap, hf2, heq, htr, hmem, hdev⟩ |
    ⟨s', hcap, hf2, heq, htr, hmem, hdev⟩
  · rw [hcap0] at hcap
    simp at hcap
  · rw [hf] at hf2
    have he : e' = e := (Option.some.inj hf2).symm
    subst he
    have hstate : s' = { s with trace := s.trace ++ [.erase_sector sector num] } :=
      MtdState.ext_eq _ _ hdev hmem htr
    rw [do_erase_sector, heq, hstate]
    cases e' with
    | Unsupported => exact absurd rfl hne
    | NoDev => rfl
    | NotReady => rfl
    | OutOfRange => rfl
    | Misaligned => rfl
    | IOError => rfl
    | InvalidArgument => rfl
  · rw [hf] at hf2
    cases hf2

theorem do_erase_sector_bulk_unsupported (d : mtd_desc) (ss : Nat) (s : MtdState)
    (sector num : Nat) (hcap0 : d.has_erase_sector = true)
    (hf : d.fault (.erase_sector sector num) = some .Unsupported) :
    do_erase_sector d ss s sector num
      = erase_go d ss num { s with trace := s.trace ++ [.erase_sector sector num] }
          sector num := by
  rcases callDriver_cases d d.has_erase_sector (.erase_sector sector num)
      (eraseEff ss sector num) s with
    ⟨hcap, heq⟩ | ⟨e', s', hcap, hf2, heq, htr, hmem, hdev⟩ |
    ⟨s', hcap, hf2, heq, htr, hmem, hdev⟩
  · rw [hcap0] at hcap
    simp at hcap
  · rw [hf] at hf2
    have he : e' = .Unsupported := (Option.some.inj hf2).symm
    subst he
    have hstate : s' = { s with trace := s.trace ++ [.erase_sector sector num] } :=
      MtdState.ext_eq _ _ hdev hmem htr
    rw [do_erase_sector, heq, hstate]
    simp [hcap0]
  · rw [hf] at hf2
    cases hf2

/-! ### Device-handle preservation lemmas -/

theorem write_raw_go_dev (d : mtd_desc) (ps : Nat) :
    ∀ (fuel : Nat) (s : MtdState) (src : List Nat) (addr size : Nat),
    ((write_raw_go d ps fuel s src addr size).2).dev = s.dev := by
  intro fuel
  induction fuel with
  | zero => intro s src addr size; rfl
  | succ k ih =>
    intro s src addr size
    by_cases hsz : size = 0
    · simp [write_raw_go, hsz]
    · rw [write_raw_go]
      simp only [hsz, if_false]
      rcases callDriver_cases d d.has_write (.write addr (min (ps - addr % ps) size))
          (fun m => storeBytes m addr (src.take (min (ps - addr % ps) size))) s with
        ⟨hcap, heq⟩ | ⟨e, s', hcap, hf, heq, htr, hmem, hdev⟩ |
        ⟨s', hcap, hf, heq, htr, hmem, hdev⟩
      · rw [heq]
      · rw [heq]
        exact hdev
      · rw [heq]
        rw [ih s' (src.drop (min (ps - addr % ps) size))
          (addr + min (ps - addr % ps) size) (size - min (ps - addr % ps) size), hdev]

theorem write_raw_go_writes (d : mtd_desc) (ps : Nat) :
    ∀ (fuel : Nat) (s : MtdState) (src : List Nat) (addr size : Nat),
    ∃ calls : List BackendCall,
      ((write_raw_go d ps fuel s src addr size).2).trace = s.trace ++ calls ∧
      ∀ c ∈ calls, ∃ a n, c = .write a n := by
  intro fuel
  induction fuel with
  | zero =>
    intro s src addr size
    exact ⟨[], by simp [write_raw_go], by simp⟩
  | succ k ih =>
    intro s src addr size
    by_cases hsz : size = 0
    · exact ⟨[], by simp [write_raw_go, hsz], by simp⟩
    · rw [write_raw_go]
      simp only [hsz, if_false]
      rcases callDriver_cases d d.has_write (.write addr (min (ps - addr % ps) size))
          (fun m => storeBytes m addr (src.take (min (ps - addr % ps) size))) s with
        ⟨hcap, heq⟩ | ⟨e, s', hcap, hf, heq, htr, hmem, hdev⟩ |
        ⟨s', hcap, hf, heq, htr, hmem, hdev⟩
      · rw [heq]
        exact ⟨[], by simp, by simp⟩
      · rw [heq]
        refine ⟨[.write addr (min (ps - addr % ps) size)], by simp [htr], ?_⟩
        intro c hc
        simp at hc
        exact ⟨addr, min (ps - addr % ps) size, hc⟩
      · rw [heq]
        obtain ⟨calls, htr2, hcalls⟩ := ih s' (src.drop (min (ps - addr % ps) size))
          (addr + min (ps - addr % ps) size) (size - min (ps - addr % ps) size)
        refine ⟨.write addr (min (ps - addr % ps) size) :: calls, ?_, ?_⟩
        · rw [htr2, htr]
          simp
        · intro c hc
          rcases List.mem_cons.mp hc with hc | hc
          · exact ⟨addr, min (ps - addr % ps) size, hc⟩
          · exact hcalls c hc

theorem erase_go_dev (d : mtd_desc) (ss : Nat) :
    ∀ (fuel : Nat) (s : MtdState) (sector num : Nat),
    ((erase_go d ss fuel s sector num).2).dev = s.dev := by
  intro fuel
  induction fuel with
  | zero => intro s sector num; rfl
  | succ k ih =>
    intro s sector num
    by_cases hnum : num = 0
    · simp [erase_go, hnum]
    · rw [erase_go]
      simp only [hnum, if_false]
      rcases callDriver_cases d d.has_erase_sector (.erase_sector sector 1)
          (eraseEff ss sector 1) s with
        ⟨hcap, heq⟩ | ⟨e, s', hcap, hf, heq, htr, hmem, hdev⟩ |
        ⟨s', hcap, hf, heq, htr, hmem, hdev⟩
      · rw [heq]
      · rw [heq]
        exact hdev
      · rw [heq]
        rw [ih s' (sector + 1) (num - 1), hdev]

theorem do_erase_sector_dev (d : mtd_desc) (ss : Nat) (s : MtdState)
    (sector num : Nat) :
    ((do_erase_sector d ss s sector num).2).dev = s.dev := by
  rcases callDriver_cases d d.has_erase_sector (.erase_sector sector num)
      (eraseEff ss sector num) s with
    ⟨hcap, heq⟩ | ⟨e, s', hcap, hf, heq, htr, hmem, hdev⟩ |
    ⟨s', hcap, hf, heq, htr, hmem, hdev⟩
  · rw [do_erase_sector, heq, hcap]
    simp
  · rw [do_erase_sector, heq]
    cases e with
    | Unsupported =>
      simp only [hcap, if_true]
      rw [erase_go_dev d ss num s' sector num, hdev]
    | NoDev => exact hdev
    | NotReady => exact hdev
    | OutOfRange => exact hdev
    | Misaligned => exact hdev
    | IOError => exact hdev
    | InvalidArgument => exact hdev
  · rw [do_erase_sector, heq]
    exact hdev

theorem write_sector_emulated_dev (d : mtd_desc) (ps ss : Nat) (s : MtdState)
    (sec off : Nat) (data : List Nat) :
    ((write_sector_emulated d ps ss s sec off data).2).dev = s.dev := by
  rw [write_sector_emulated]
  rcases hr : read_go d ps ss s (sec * ss) ss [] with ⟨r, s1⟩
  have hdev1 : s1.dev = s.dev := by
    have := (read_go_state d ps ss s (sec * ss) ss []).2.1
    rw [hr] at this
    exact this
  cases r with
  | error e => exact hdev1
  | ok buf =>
    simp only [andThen_ok_apply]
    rcases he : do_erase_sector d ss s1 sec 1 with ⟨r2, s2⟩
    have hdev2 : s2.dev = s1.dev := by
      have := do_erase_sector_dev d ss s1 sec 1
      rw [he] at this
      exact this
    cases r2 with
    | error e => exact hdev2.trans hdev1
    | ok u =>
      simp only [andThen_ok_apply]
      rw [write_raw_go_dev d ps ss s2 (storeBytes buf off data) (sec * ss) ss,
        hdev2, hdev1]

theorem write_page_go_dev (d : mtd_desc) (ps ss : Nat) :
    ∀ (fuel : Nat) (s : MtdState) (src : List Nat) (addr size : Nat),
    ((write_page_go d ps ss fuel s src addr size).2).dev = s.dev := by
  intro fuel
  induction fuel with
  | zero => intro s src addr size; rfl
  | succ k ih =>
    intro s src addr size
    by_cases hsz : size = 0
    · simp [write_page_go, hsz]
    · rw [write_page_go]
      simp only [hsz, if_false]
      rcases hws : write_sector_emulated d ps ss s (addr / ss) (addr % ss)
          (src.take (min (ss - addr % ss) size)) with ⟨r, s'⟩
      have hdev1 : s'.dev = s.dev := by
        have := write_sector_emulated_dev d ps ss s (addr / ss) (addr % ss)
          (src.take (min (ss - addr % ss) size))
        rw [hws] at this
        exact this
      cases r with
      | error e => exact hdev1
      | ok u =>
        simp only [andThen_ok_apply]
        rw [ih s' (src.drop (min (ss - addr % ss) size))
          (addr + min (ss - addr % ss) size) (size - min (ss - addr % ss) size), hdev1]

theorem callDriver_dev (d : mtd_desc) (cap : Bool) (c : BackendCall)
    (eff : List Nat → List Nat) (s : MtdState) :
    ((callDriver d cap c eff s).2).dev = s.dev := by
  rcases callDriver_cases d cap c eff s with
    ⟨_, heq⟩ | ⟨e, s', _, _, heq, _, _, hdev⟩ | ⟨s', _, _, heq, _, _, hdev⟩
  · rw [heq]
  · rw [heq]
    exact hdev
  · rw [heq]
    exact hdev

theorem mtd_read_dev (s : MtdState) (addr count : Nat) :
    ((mtd_read s addr count).2).dev = s.dev := by
  rw [mtd_read]
  split
  · rfl
  · rename_i d hdrv
    split
    · rfl
    · split
      · rfl
      · exact (read_go_state d s.dev.page_size count s addr count []).2.1

theorem mtd_read_page_dev (s : MtdState) (page offset size : Nat) :
    ((mtd_read_page s page offset size).2).dev = s.dev := by
  rw [mtd_read_page]
  split
  · rfl
  · rename_i d hdrv
    split
    · rfl
    · split
      · rfl
      · split
        · rfl
        · exact (read_go_state d s.dev.page_size size s
            (page * s.dev.page_size + offset) size []).2.1

theorem mtd_write_dev (s : MtdState) (src : List Nat) (addr count : Nat) :
    ((mtd_write s src addr count).2).dev = s.dev := by
  rw [mtd_write]
  split
  · rfl
  · rename_i d hdrv
    split
    · rfl
    · split
      · rfl
      · exact write_raw_go_dev d s.dev.page_size count s src addr count

theorem write_page_raw_core_dev (d : mtd_desc) (s : MtdState) (src : List Nat)
    (page offset size : Nat) :
    ((write_page_raw_core d s src page offset size).2).dev = s.dev := by
  rw [write_page_raw_core]
  split
  · rfl
  · split
    · rfl
    · exact write_raw_go_dev d s.dev.page_size size s src
        (page * s.dev.page_size + offset) size

theorem mtd_write_page_raw_dev (s : MtdState) (src : List Nat)
    (page offset size : Nat) :
    ((mtd_write_page_raw s src page offset size).2).dev = s.dev := by
  rw [mtd_write_page_raw]
  split
  · rfl
  · rename_i d hdrv
    split
    · rfl
    · exact write_page_raw_core_dev d s src page offset size

theorem mtd_write_page_dev (s : MtdState) (src : List Nat)
    (page offset size : Nat) :
    ((mtd_write_page s src page offset size).2).dev = s.dev := by
  rw [mtd_write_page]
  split
  · rfl
  · rename_i d hdrv
    split
    · rfl
    · split
      · exact write_page_raw_core_dev d s src page offset size
      · split
        · rfl
        · split
          · rfl
          · split
            · rfl
            · exact write_page_go_dev d s.dev.page_size s.dev.sector_size size s src
                (page * s.dev.page_size + offset) size

theorem mtd_erase_sector_dev (s : MtdState) (sector num : Nat) :
    ((mtd_erase_sector s sector num).2).dev = s.dev := by
  rw [mtd_erase_sector]
  split
  · rfl
  · rename_i d hdrv
    split
    · rfl
    · split
      · rfl
      · exact do_erase_sector_dev d s.dev.sector_size s sector num

theorem mtd_erase_dev (s : MtdState) (addr count : Nat) :
    ((mtd_erase s addr count).2).dev = s.dev := by
  rw [mtd_erase]
  split
  · rfl
  · split
    · rfl
    · split
      · rfl
      · split
        · rfl
        · split
          · rfl
          · exact mtd_erase_sector_dev s (addr / s.dev.sector_size)
              (count / s.dev.sector_size)

theorem mtd_power_dev (s : MtdState) (p : mtd_power_state) :
    ((mtd_power s p).2).dev = s.dev := by
  rw [mtd_power]
  split
  · rfl
  · rename_i d hdrv
    split
    · rfl
    · exact callDriver_dev d d.has_power (.power p) id s

theorem mtd_init_geometry (s : MtdState) :
    ((mtd_init s).2).dev.page_size = s.dev.page_size ∧
    ((mtd_init s).2).dev.pages_per_sector = s.dev.pages_per_sector ∧
    ((mtd_init s).2).dev.sector_count = s.dev.sector_count := by
  rw [mtd_init]
  split
  · exact ⟨rfl, rfl, rfl⟩
  · split
    · exact ⟨rfl, rfl, rfl⟩
    · split
      · exact ⟨rfl, rfl, rfl⟩
      · exact ⟨rfl, rfl, rfl⟩

/-! ### Emulated write path lemmas -/

theorem list_ext_getD (l1 l2 : List Nat) (hlen : l1.length = l2.length)
    (h : ∀ i, i < l1.length → l1.getD i eraseValue = l2.getD i eraseValue) :
    l1 = l2 := by
  apply List.ext_getElem hlen
  intro i h1 h2
  have hi := h i h1
  rw [List.getD_eq_getElem?_getD, List.getD_eq_getElem?_getD,
    List.getElem?_eq_getElem h1, List.getElem?_eq_getElem h2] at hi
  simpa using hi

theorem storeBytes_override (m : List Nat) (a : Nat) (bs cs : List Nat)
    (hlen : bs.length ≤ cs.length) :
    storeBytes (storeBytes m a bs) a cs = storeBytes m a cs := by
  apply list_ext_getD
  · rw [storeBytes_length, storeBytes_length, storeBytes_length]
  · intro i hi
    rw [storeBytes_length, storeBytes_length] at hi
    by_cases h1 : i < a
    · rw [storeBytes_getD_low cs (storeBytes m a bs) a i eraseValue h1,
        storeBytes_getD_low cs m a i eraseValue h1,
        storeBytes_getD_low bs m a i eraseValue h1]
    · by_cases h2 : i < a + cs.length
      · rw [storeBytes_getD_mid cs (storeBytes m a bs) a i eraseValue (by omega) h2
          (by rw [storeBytes_length]; exact hi),
          storeBytes_getD_mid cs m a i eraseValue (by omega) h2 hi]
      · rw [storeBytes_getD_high cs (storeBytes m a bs) a i eraseValue (by omega),
          storeBytes_getD_high cs m a i eraseValue (by omega),
          storeBytes_getD_high bs m a i eraseValue (by omega)]

theorem do_erase_sector_ok_mem (d : mtd_desc) (ss : Nat) (s : MtdState)
    (sector num : Nat)
    (h : (do_erase_sector d ss s sector num).1 = .ok ()) :
    ((do_erase_sector d ss s sector num).2).mem = eraseEff ss sector num s.mem := by
  cases hcap : d.has_erase_sector with
  | false =>
    rw [do_erase_sector_nocap d ss s sector num hcap] at h
    cases h
  | true =>
    cases hf : d.fault (.erase_sector sector num) with
    | none =>
      rw [do_erase_sector_bulk_ok d ss s sector num hcap hf]
    | some e =>
      by_cases he : e = .Unsupported
      · subst he
        rw [do_erase_sector_bulk_unsupported d ss s sector num hcap hf] at h ⊢
        obtain ⟨_, j, hj, hnone, hcases⟩ := erase_go_spec d ss hcap num
          { s with trace := s.trace ++ [.erase_sector sector num] } sector num
          (le_refl num)
        rcases hcases with ⟨hok, hjeq, htr, hmem⟩ | ⟨hlt, e2, hfj, herr, htr, hmem⟩
        · rw [hmem]
          rfl
        · rw [herr] at h
          cases h
      · rw [do_erase_sector_bulk_error d ss s sector num e hcap hf he] at h
        cases h

theorem write_sector_emulated_ok (d : mtd_desc) (ps ss : Nat) (hps : 0 < ps)
    (s : MtdState) (sec off : Nat) (data : List Nat)
    (hok : (write_sector_emulated d ps ss s sec off data).1 = .ok ()) :
    ((write_sector_emulated d ps ss s sec off data).2).mem
      = storeBytes s.mem (sec * ss)
          (storeBytes (loadBytes s.mem (sec * ss) ss) off data) := by
  rw [write_sector_emulated] at hok ⊢
  rcases hr : read_go d ps ss s (sec * ss) ss [] with ⟨r, s1⟩
  rw [hr] at hok
  have hmem1 : s1.mem = s.mem := by
    have := (read_go_state d ps ss s (sec * ss) ss []).1
    rw [hr] at this
    exact this
  cases r with
  | error e => exact absurd hok (by simp [andThen])
  | ok buf =>
    have hbuf : buf = loadBytes s.mem (sec * ss) ss := by
      have := read_go_ok d ps hps ss s (sec * ss) ss [] buf (le_refl ss)
        (by rw [hr])
      simpa using this
    simp only [andThen_ok_apply] at hok ⊢
    rcases he : do_erase_sector d ss s1 sec 1 with ⟨r2, s2⟩
    rw [he] at hok
    cases r2 with
    | error e => exact absurd hok (by simp [andThen])
    | ok u =>
      have hmem2 : s2.mem = eraseEff ss sec 1 s1.mem := by
        have := do_erase_sector_ok_mem d ss s1 sec 1 (by rw [he])
        rw [he] at this
        exact this
      simp only [andThen_ok_apply] at hok ⊢
      have hbuflen : (storeBytes buf off data).length = ss := by
        rw [storeBytes_length, hbuf, loadBytes_length]
      have hw := write_raw_go_ok d ps hps ss s2 (storeBytes buf off data)
        (sec * ss) ss (le_refl ss) (by omega) hok
      rw [hw, hmem2, hmem1]
      have htake : (storeBytes buf off data).take ss = storeBytes buf off data := by
        rw [← hbuflen, List.take_length]
      rw [htake, hbuf, eraseEff]
      have hrep : (List.replicate (1 * ss) eraseValue).length
          ≤ (storeBytes (loadBytes s.mem (sec * ss) ss) off data).length := by
        rw [List.length_replicate, storeBytes_length, loadBytes_length]
        omega
      exact storeBytes_override s.mem (sec * ss) (List.replicate (1 * ss) eraseValue)
        (storeBytes (loadBytes s.mem (sec * ss) ss) off data) hrep

theorem write_page_go_zero (d : mtd_desc) (ps ss fuel : Nat) (s : MtdState)
    (src : List Nat) (addr : Nat) :
    write_page_go d ps ss fuel s src addr 0 = (.ok (), s) := by
  cases fuel <;> simp [write_page_go]

theorem write_page_go_single_frame (d : mtd_desc) (ps ss : Nat) (hps : 0 < ps)
    (hss : 0 < ss) (s : MtdState) (src : List Nat) (addr size : Nat)
    (hone : addr % ss + size ≤ ss)
    (hbound : addr / ss * ss + ss ≤ s.mem.length)
    (hok : (write_page_go d ps ss size s src addr size).1 = .ok ()) :
    ∀ i, i < ss → (i < addr % ss ∨ addr % ss + size ≤ i) →
    ((write_page_go d ps ss size s src addr size).2).mem.getD
      (addr / ss * ss + i) eraseValue
      = s.mem.getD (addr / ss * ss + i) eraseValue := by
  intro i hi hout
  by_cases hsz : size = 0
  · subst hsz
    rw [write_page_go_zero]
  · obtain ⟨k, rfl⟩ : ∃ k, size = k + 1 := ⟨size - 1, by omega⟩
    have hcond : ¬(k + 1 = 0) := by omega
    rw [write_page_go] at hok ⊢
    simp only [hcond, if_false] at hok ⊢
    have hchunk : min (ss - addr % ss) (k + 1) = k + 1 := by
      have := Nat.mod_lt addr hss
      omega
    rw [hchunk] at hok ⊢
    rcases hws : write_sector_emulated d ps ss s (addr / ss) (addr % ss)
        (List.take (k + 1) src) with ⟨r, s'⟩
    rw [hws] at hok
    cases r with
    | error e => exact absurd hok (by simp [andThen])
    | ok u =>
      simp only [andThen_ok_apply] at hok ⊢
      have h0 : k + 1 - (k + 1) = 0 := by omega
      rw [h0] at hok ⊢
      rw [write_page_go_zero] at hok ⊢
      have hsmem := write_sector_emulated_ok d ps ss hps s (addr / ss) (addr % ss)
        (List.take (k + 1) src) (by rw [hws])
      rw [hws] at hsmem
      rw [hsmem]
      have hBlen : (storeBytes (loadBytes s.mem (addr / ss * ss) ss) (addr % ss)
          (List.take (k + 1) src)).length = ss := by
        rw [storeBytes_length, loadBytes_length]
      rw [storeBytes_getD_mid _ s.mem (addr / ss * ss) (addr / ss * ss + i)
        eraseValue (by omega) (by rw [hBlen]; omega) (by omega)]
      have hsub : addr / ss * ss + i - addr / ss * ss = i := by omega
      rw [hsub]
      have htlen : (List.take (k + 1) src).length ≤ k + 1 := by
        rw [List.length_take]
        omega
      have hL : (storeBytes (loadBytes s.mem (addr / ss * ss) ss) (addr % ss)
          (List.take (k + 1) src)).getD i eraseValue
          = (loadBytes s.mem (addr / ss * ss) ss).getD i eraseValue := by
        rcases hout with hlow | hhigh
        · exact storeBytes_getD_low (List.take (k + 1) src) _ (addr % ss) i
            eraseValue hlow
        · exact storeBytes_getD_high (List.take (k + 1) src) _ (addr % ss) i
            eraseValue (by omega)
      rw [hL, loadBytes_getD ss s.mem (addr / ss * ss) i eraseValue hi]

/-! ### Failure propagation lemmas -/

theorem sectorCalls_snoc : ∀ (j sector : Nat),
    sectorCalls sector (j + 1)
      = sectorCalls sector j ++ [.erase_sector (sector + j) 1] := by
  intro j
  induction j with
  | zero => intro sector; simp [sectorCalls]
  | succ j' ih =>
    intro sector
    rw [sectorCalls, ih (sector + 1), sectorCalls]
    have : sector + 1 + j' = sector + (j' + 1) := by omega
    rw [this]
    rfl

theorem sectorCalls_mem : ∀ (n sector : Nat) (c : BackendCall),
    c ∈ sectorCalls sector n → ∃ i, i < n ∧ c = .erase_sector (sector + i) 1 := by
  intro n
  induction n with
  | zero => intro sector c hc; simp [sectorCalls] at hc
  | succ n' ih =>
    intro sector c hc
    rw [sectorCalls] at hc
    rcases List.mem_cons.mp hc with hc | hc
    · exact ⟨0, by omega, by simpa using hc⟩
    · obtain ⟨i, hi, hceq⟩ := ih (sector + 1) c hc
      refine ⟨i + 1, by omega, ?_⟩
      rw [hceq]
      have : sector + 1 + i = sector + (i + 1) := by omega
      rw [this]

theorem emulApply_zero (ss fuel : Nat) (m src : List Nat) (a : Nat) :
    emulApply ss fuel m src a 0 = m := by
  cases fuel <;> simp [emulApply]

theorem emulApply_fuel (ss : Nat) (hss : 0 < ss) :
    ∀ (f1 f2 : Nat) (m src : List Nat) (a n : Nat), n ≤ f1 → n ≤ f2 →
    emulApply ss f1 m src a n = emulApply ss f2 m src a n := by
  intro f1
  induction f1 with
  | zero =>
    intro f2 m src a n h1 h2
    have hz : n = 0 := Nat.le_zero.mp h1
    subst hz
    rw [emulApply_zero, emulApply_zero]
  | succ f ih =>
    intro f2 m src a n h1 h2
    by_cases hn : n = 0
    · subst hn
      rw [emulApply_zero, emulApply_zero]
    · obtain ⟨g, rfl⟩ : ∃ g, f2 = g + 1 := ⟨f2 - 1, by omega⟩
      rw [emulApply, emulApply]
      simp only [hn, if_false]
      have hc1 : 0 < min (ss - a % ss) n := by
        have := Nat.mod_lt a hss
        omega
      exact ih g _ (src.drop (min (ss - a % ss) n)) (a + min (ss - a % ss) n)
        (n - min (ss - a % ss) n) (by omega) (by omega)

theorem read_go_ok_trace (d : mtd_desc) (ps : Nat) :
    ∀ (fuel : Nat) (s : MtdState) (addr size : Nat) (acc res : List Nat),
    (read_go d ps fuel s addr size acc).1 = .ok res →
    ∃ calls : List BackendCall,
      ((read_go d ps fuel s addr size acc).2).trace = s.trace ++ calls ∧
      ∀ c ∈ calls, d.fault c = none := by
  intro fuel
  induction fuel with
  | zero =>
    intro s addr size acc res _
    exact ⟨[], by simp [read_go], by simp⟩
  | succ k ih =>
    intro s addr size acc res hok
    by_cases hsz : size = 0
    · subst hsz
      exact ⟨[], by simp [read_go], by simp⟩
    · rw [read_go] at hok ⊢
      simp only [hsz, if_false] at hok ⊢
      rcases callDriver_cases d d.has_read (.read addr (min (ps - addr % ps) size))
          id s with
        ⟨hcap, heq⟩ | ⟨e, s', hcap, hf, heq, htr, hmem, hdev⟩ |
        ⟨s', hcap, hf, heq, htr, hmem, hdev⟩
      · rw [heq] at hok
        simp at hok
      · rw [heq] at hok
        simp at hok
      · rw [heq] at hok ⊢
        simp only at hok ⊢
        obtain ⟨calls, htr2, hcalls⟩ := ih s' (addr + min (ps - addr % ps) size)
          (size - min (ps - addr % ps) size)
          (acc ++ loadBytes s'.mem addr (min (ps - addr % ps) size)) res hok
        refine ⟨.read addr (min (ps - addr % ps) size) :: calls, ?_, ?_⟩
        · rw [htr2, htr]
          simp
        · intro c hc
          rcases List.mem_cons.mp hc with hc | hc
          · rw [hc]
            exact hf
          · exact hcalls c hc

theorem write_raw_go_ok_trace (d : mtd_desc) (ps : Nat) :
    ∀ (fuel : Nat) (s : MtdState) (src : List Nat) (addr size : Nat),
    (write_raw_go d ps fuel s src addr size).1 = .ok () →
    ∃ calls : List BackendCall,
      ((write_raw_go d ps fuel s src addr size).2).trace = s.trace ++ calls ∧
      ∀ c ∈ calls, d.fault c = none := by
  intro fuel
  induction fuel with
  | zero =>
    intro s src addr size _
    exact ⟨[], by simp [write_raw_go], by simp⟩
  | succ k ih =>
    intro s src addr size hok
    by_cases hsz : size = 0
    · subst hsz
      exact ⟨[], by simp [write_raw_go], by simp⟩
    · rw [write_raw_go] at hok ⊢
      simp only [hsz, if_false] at hok ⊢
      rcases callDriver_cases d d.has_write (.write addr (min (ps - addr % ps) size))
          (fun m => storeBytes m addr (src.take (min (ps - addr % ps) size))) s with
        ⟨hcap, heq⟩ | ⟨e, s', hcap, hf, heq, htr, hmem, hdev⟩ |
        ⟨s', hcap, hf, heq, htr, hmem, hdev⟩
      · rw [heq] at hok
        simp at hok
      · rw [heq] at hok
        simp at hok
      · rw [heq] at hok ⊢
        simp only at hok ⊢
        obtain ⟨calls, htr2, hcalls⟩ := ih s' (src.drop (min (ps - addr % ps) size))
          (addr + min (ps - addr % ps) size) (size - min (ps - addr % ps) size) hok
        refine ⟨.write addr (min (ps - addr % ps) size) :: calls, ?_, ?_⟩
        · rw [htr2, htr]
          simp
        · intro c hc
          rcases List.mem_cons.mp hc with hc | hc
          · rw [hc]
            exact hf
          · exact hcalls c hc

theorem do_erase_sector_ok_trace (d : mtd_desc) (ss : Nat) (s : MtdState)
    (sector num : Nat)
    (h : (do_erase_sector d ss s sector num).1 = .ok ()) :
    ∃ calls : List BackendCall,
      ((do_erase_sector d ss s sector num).2).trace = s.trace ++ calls ∧
      ∀ c ∈ calls, benignSubCall d c := by
  cases hcap : d.has_erase_sector with
  | false =>
    rw [do_erase_sector_nocap d ss s sector num hcap] at h
    cases h
  | true =>
    cases hf : d.fault (.erase_sector sector num) with
    | none =>
      rw [do_erase_sector_bulk_ok d ss s sector num hcap hf]
      refine ⟨[.erase_sector sector num], by simp, ?_⟩
      intro c hc
      simp at hc
      rw [hc]
      exact Or.inl hf
    | some e =>
      by_cases he : e = .Unsupported
      · subst he
        rw [do_erase_sector_bulk_unsupported d ss s sector num hcap hf] at h ⊢
        obtain ⟨_, j, hj, hnone, hcases⟩ := erase_go_spec d ss hcap num
          { s with trace := s.trace ++ [.erase_sector sector num] } sector num
          (le_refl num)
        rcases hcases with ⟨hok2, hjeq, htr, hmem⟩ | ⟨hlt, e2, hfj, herr, htr, hmem⟩
        · refine ⟨.erase_sector sector num :: sectorCalls sector num, ?_, ?_⟩
          · rw [htr]
            simp
          · intro c hc
            rcases List.mem_cons.mp hc with hc | hc
            · rw [hc]
              exact Or.inr ⟨sector, num, rfl, hf⟩
            · obtain ⟨i, hi, hceq⟩ := sectorCalls_mem num sector c hc
              rw [hceq]
              exact Or.inl (hnone i (by omega))
        · rw [herr] at h
          cases h
      · rw [do_erase_sector_bulk_error d ss s sector num e hcap hf he] at h
        cases h

theorem do_erase_sector_error (d : mtd_desc) (ss : Nat) (s : MtdState)
    (sector num : Nat) (e : MtdError) (hcap : d.has_erase_sector = true)
    (herr : (do_erase_sector d ss s sector num).1 = .error e) :
    (∀ i, i < sector * ss ∨ sector * ss + num * ss ≤ i →
      ((do_erase_sector d ss s sector num).2).mem.getD i eraseValue
        = s.mem.getD i eraseValue) ∧
    ∃ pre cfail, ((do_erase_sector d ss s sector num).2).trace
        = s.trace ++ (pre ++ [cfail]) ∧
      d.fault cfail = some e ∧ (∀ c ∈ pre, benignSubCall d c) ∧
      ((pre = [] ∧ cfail = .erase_sector sector num ∧
        ((do_erase_sector d ss s sector num).2).mem = s.mem) ∨
       (∃ j, j < num ∧ pre = .erase_sector sector num :: sectorCalls sector j ∧
        cfail = .erase_sector (sector + j) 1 ∧
        d.fault (.erase_sector sector num) = some .Unsupported ∧
        (∀ i, i < j → d.fault (.erase_sector (sector + i) 1) = none) ∧
        ((do_erase_sector d ss s sector num).2).mem
          = storeBytes s.mem (sector * ss) (List.replicate (j * ss) eraseValue))) := by
  cases hf : d.fault (.erase_sector sector num) with
  | none =>
    rw [do_erase_sector_bulk_ok d ss s sector num hcap hf] at herr
    cases herr
  | some e' =>
    by_cases he : e' = .Unsupported
    · subst he
      rw [do_erase_sector_bulk_unsupported d ss s sector num hcap hf] at herr ⊢
      obtain ⟨_, j, hj, hnone, hcases⟩ := erase_go_spec d ss hcap num
        { s with trace := s.trace ++ [.erase_sector sector num] } sector num
        (le_refl num)
      rcases hcases with ⟨hok2, hjeq, htr, hmem⟩ | ⟨hlt, e2, hfj, herr2, htr, hmem⟩
      · rw [hok2] at herr
        cases herr
      · have he2 : e2 = e := by
          rw [herr2] at herr
          exact Except.error.inj herr
        subst he2
        refine ⟨?_, .erase_sector sector num :: sectorCalls sector j,
          .erase_sector (sector + j) 1, ?_, hfj, ?_,
          Or.inr ⟨j, hlt, rfl, rfl, rfl, hnone, by rw [hmem]⟩⟩
        · intro i hi
          rw [hmem]
          have hjss : j * ss ≤ num * ss := Nat.mul_le_mul_right ss (by omega)
          rcases hi with hlow | hhigh
          · exact storeBytes_getD_low _ _ _ _ _ hlow
          · exact storeBytes_getD_high _ _ _ _ _
              (by rw [List.length_replicate]; omega)
        · rw [htr, sectorCalls_snoc]
          simp
        · intro c hc
          rcases List.mem_cons.mp hc with hc | hc
          · rw [hc]
            exact Or.inr ⟨sector, num, rfl, hf⟩
          · obtain ⟨i, hi, hceq⟩ := sectorCalls_mem j sector c hc
            rw [hceq]
            exact Or.inl (hnone i hi)
    · rw [do_erase_sector_bulk_error d ss s sector num e' hcap hf he] at herr ⊢
      have he' : e' = e := Except.error.inj herr
      subst he'
      exact ⟨fun i _ => rfl, [], .erase_sector sector num, by simp, hf, by simp,
        Or.inl ⟨rfl, rfl, rfl⟩⟩

theorem write_sector_emulated_ok_trace (d : mtd_desc) (ps ss : Nat)
    (s : MtdState) (sec off : Nat) (data : List Nat)
    (hok : (write_sector_emulated d ps ss s sec off data).1 = .ok ()) :
    ∃ calls : List BackendCall,
      ((write_sector_emulated d ps ss s sec off data).2).trace = s.trace ++ calls ∧
      ∀ c ∈ calls, benignSubCall d c := by
  rw [write_sector_emulated] at hok ⊢
  rcases hr : read_go d ps ss s (sec * ss) ss [] with ⟨r, s1⟩
  rw [hr] at hok
  cases r with
  | error e => exact absurd hok (by simp [andThen])
  | ok buf =>
    simp only [andThen_ok_apply] at hok ⊢
    rcases he : do_erase_sector d ss s1 sec 1 with ⟨r2, s2⟩
    rw [he] at hok
    cases r2 with
    | error e => exact absurd hok (by simp [andThen])
    | ok u =>
      simp only [andThen_ok_apply] at hok ⊢
      obtain ⟨c1, h1, hb1⟩ := read_go_ok_trace d ps ss s (sec * ss) ss [] buf
        (by rw [hr])
      rw [hr] at h1
      obtain ⟨c2, h2, hb2⟩ := do_erase_sector_ok_trace d ss s1 sec 1 (by rw [he])
      rw [he] at h2
      obtain ⟨c3, h3, hb3⟩ := write_raw_go_ok_trace d ps ss s2
        (storeBytes buf off data) (sec * ss) ss hok
      refine ⟨c1 ++ (c2 ++ c3), ?_, ?_⟩
      · rw [h3, h2, h1]
        simp
      · intro c hc
        rcases List.mem_append.mp hc with hc | hc
        · exact Or.inl (hb1 c hc)
        · rcases List.mem_append.mp hc with hc | hc
          · exact hb2 c hc
          · exact Or.inl (hb3 c hc)

theorem write_sector_emulated_error (d : mtd_desc) (ps ss : Nat) (hps : 0 < ps)
    (hss : 0 < ss) (hcr : d.has_read = true) (has_w : d.has_write = true)
    (hce : d.has_erase_sector = true) (s : MtdState) (sec off : Nat)
    (data : List Nat) (e : MtdError)
    (herr : (write_sector_emulated d ps ss s sec off data).1 = .error e) :
    (∀ i, i < sec * ss ∨ sec * ss + ss ≤ i →
      ((write_sector_emulated d ps ss s sec off data).2).mem.getD i eraseValue
        = s.mem.getD i eraseValue) ∧
    ∃ pre cfail, ((write_sector_emulated d ps ss s sec off data).2).trace
        = s.trace ++ (pre ++ [cfail]) ∧
      d.fault cfail = some e ∧ sectorOfCall ss cfail = sec ∧
      ∀ c ∈ pre, benignSubCall d c := by
  have hsum : (sec + 1) * ss = sec * ss + ss := by ring
  rw [write_sector_emulated] at herr ⊢
  rcases hr : read_go d ps ss s (sec * ss) ss [] with ⟨r, s1⟩
  rw [hr] at herr
  have hmem1 : s1.mem = s.mem := by
    have := (read_go_state d ps ss s (sec * ss) ss []).1
    rw [hr] at this
    exact this
  cases r with
  | error e' =>
    have he' : e' = e := by
      simpa [andThen] using herr
    subst he'
    obtain ⟨pre, cfail, htr, hpre, hcf, a, n, hcfeq, hn, ha1, ha2⟩ :=
      read_go_error d ps hps hcr ss s (sec * ss) ss [] e' (by rw [hr])
    rw [hr] at htr
    constructor
    · intro i _
      show s1.mem.getD i eraseValue = s.mem.getD i eraseValue
      rw [hmem1]
    · refine ⟨pre, cfail, htr, hcf, ?_, fun c hc => Or.inl (hpre c hc)⟩
      rw [hcfeq]
      exact Nat.div_eq_of_lt_le ha1 (by omega)
  | ok buf =>
    simp only [andThen_ok_apply] at herr ⊢
    have hbuf : buf = loadBytes s.mem (sec * ss) ss := by
      have := read_go_ok d ps hps ss s (sec * ss) ss [] buf (le_refl ss) (by rw [hr])
      simpa using this
    obtain ⟨c1, h1, hb1⟩ := read_go_ok_trace d ps ss s (sec * ss) ss [] buf
      (by rw [hr])
    rw [hr] at h1
    rcases he : do_erase_sector d ss s1 sec 1 with ⟨r2, s2⟩
    rw [he] at herr
    cases r2 with
    | error e' =>
      have he' : e' = e := by
        simpa [andThen] using herr
      subst he'
      obtain ⟨hframe, pre2, cf2, htr2, hcf2, hpre2, hpin⟩ :=
        do_erase_sector_error d ss s1 sec 1 e' hce (by rw [he])
      rw [he] at htr2
      constructor
      · intro i hi
        show s2.mem.getD i eraseValue = s.mem.getD i eraseValue
        have hfr := hframe i (hi.imp (fun h => h) (fun h => by omega))
        rw [he] at hfr
        rw [← hmem1]
        exact hfr
      · refine ⟨c1 ++ pre2, cf2, ?_, hcf2, ?_, ?_⟩
        · show s2.trace = s.trace ++ (c1 ++ pre2 ++ [cf2])
          rw [htr2, h1]
          simp
        · rcases hpin with ⟨_, hcfeq, _⟩ | ⟨j, hj, _, hcfeq, _⟩
          · rw [hcfeq]
            rfl
          · have hj0 : j = 0 := by omega
            subst hj0
            rw [hcfeq]
            rfl
        · intro c hc
          rcases List.mem_append.mp hc with hc | hc
          · exact Or.inl (hb1 c hc)
          · exact hpre2 c hc
    | ok u =>
      simp only [andThen_ok_apply] at herr ⊢
      obtain ⟨c2, h2, hb2⟩ := do_erase_sector_ok_trace d ss s1 sec 1 (by rw [he])
      rw [he] at h2
      have hmem2 : s2.mem = eraseEff ss sec 1 s1.mem := by
        have := do_erase_sector_ok_mem d ss s1 sec 1 (by rw [he])
        rw [he] at this
        exact this
      have hbuflen : ss ≤ (storeBytes buf off data).length := by
        rw [storeBytes_length, hbuf, loadBytes_length]
      obtain ⟨pre3, cf3, htr3, hpre3, hcf3, hmem3, ⟨n3, hn3, hcf3eq, hle3⟩, _⟩ :=
        write_raw_go_error d ps hps has_w ss s2 (storeBytes buf off data)
          (sec * ss) ss e hbuflen herr
      constructor
      · intro i hi
        rw [hmem3]
        have hframe3 : (storeBytes s2.mem (sec * ss)
            ((storeBytes buf off data).take (writtenBytes pre3))).getD i eraseValue
            = s2.mem.getD i eraseValue := by
          rcases hi with hlow | hhigh
          · exact storeBytes_getD_low _ _ _ _ _ hlow
          · refine storeBytes_getD_high _ _ _ _ _ ?_
            have h1 : ((storeBytes buf off data).take (writtenBytes pre3)).length
                ≤ writtenBytes pre3 := by
              rw [List.length_take]
              omega
            omega
        rw [hframe3, hmem2, eraseEff]
        have hframe2 : (storeBytes s1.mem (sec * ss)
            (List.replicate (1 * ss) eraseValue)).getD i eraseValue
            = s1.mem.getD i eraseValue := by
          rcases hi with hlow | hhigh
          · exact storeBytes_getD_low _ _ _ _ _ hlow
          · refine storeBytes_getD_high _ _ _ _ _ ?_
            rw [List.length_replicate]
            omega
        rw [hframe2, hmem1]
      · refine ⟨c1 ++ (c2 ++ pre3), cf3, ?_, hcf3, ?_, ?_⟩
        · rw [htr3, h2, h1]
          simp
        · rw [hcf3eq]
          exact Nat.div_eq_of_lt_le (by omega) (by omega)
        · intro c hc
          rcases List.mem_append.mp hc with hc | hc
          · exact Or.inl (hb1 c hc)
          · rcases List.mem_append.mp hc with hc | hc
            · exact hb2 c hc
            · exact Or.inl (hpre3 c hc)

theorem write_page_go_error (d : mtd_desc) (ps ss : Nat) (hps : 0 < ps)
    (hss : 0 < ss) (hcr : d.has_read = true) (has_w : d.has_write = true)
    (hce : d.has_erase_sector = true) :
    ∀ (fuel : Nat) (s : MtdState) (src : List Nat) (addr size : Nat) (e : MtdError),
    size ≤ fuel →
    (write_page_go d ps ss fuel s src addr size).1 = .error e →
    ∃ k, k ≤ size ∧
      (∀ i, i < (addr + k) / ss * ss →
        ((write_page_go d ps ss fuel s src addr size).2).mem.getD i eraseValue
          = (emulApply ss k s.mem src addr k).getD i eraseValue) ∧
      ∃ pre cfail, ((write_page_go d ps ss fuel s src addr size).2).trace
          = s.trace ++ (pre ++ [cfail]) ∧
        d.fault cfail = some e ∧
        (addr + k) / ss = sectorOfCall ss cfail ∧
        ∀ c ∈ pre, benignSubCall d c := by
  intro fuel
  induction fuel with
  | zero =>
    intro s src addr size e hfuel herr
    have hz : size = 0 := by omega
    subst hz
    rw [write_page_go_zero] at herr
    simp at herr
  | succ f ih =>
    intro s src addr size e hfuel herr
    by_cases hsz : size = 0
    · subst hsz
      rw [write_page_go_zero] at herr
      simp at herr
    · rw [write_page_go] at herr ⊢
      simp only [hsz, if_false] at herr ⊢
      rcases hws : write_sector_emulated d ps ss s (addr / ss) (addr % ss)
          (src.take (min (ss - addr % ss) size)) with ⟨r, s'⟩
      rw [hws] at herr
      cases r with
      | error efirst =>
        have hefirst : efirst = e := by
          simpa [andThen] using herr
        subst hefirst
        obtain ⟨hframe, pre, cfail, htr, hcf, hsec, hpre⟩ :=
          write_sector_emulated_error d ps ss hps hss hcr has_w hce s (addr / ss)
            (addr % ss) (src.take (min (ss - addr % ss) size)) efirst (by rw [hws])
        rw [hws] at htr
        refine ⟨0, by omega, ?_, pre, cfail, htr, hcf,
          by rw [hsec, Nat.add_zero], hpre⟩
        intro i hi
        rw [emulApply_zero]
        show s'.mem.getD i eraseValue = s.mem.getD i eraseValue
        have hfr := hframe i (Or.inl (by simpa using hi))
        rw [hws] at hfr
        exact hfr
      | ok u =>
        simp only [andThen_ok_apply] at herr ⊢
        by_cases hck : min (ss - addr % ss) size = size
        · rw [hck] at herr
          have h0 : size - size = 0 := by omega
          rw [h0, write_page_go_zero] at herr
          simp at herr
        · have hc' : min (ss - addr % ss) size = ss - addr % ss := by omega
          have hcpos : 0 < min (ss - addr % ss) size := by
            have := Nat.mod_lt addr hss
            omega
          obtain ⟨k', hk', hframe', pre', cfail, htr', hcf, hsec', hpre'⟩ :=
            ih s' (src.drop (min (ss - addr % ss) size))
              (addr + min (ss - addr % ss) size)
              (size - min (ss - addr % ss) size) e (by omega) herr
          have hsmem := write_sector_emulated_ok d ps ss hps s (addr / ss)
            (addr % ss) (src.take (min (ss - addr % ss) size)) (by rw [hws])
          rw [hws] at hsmem
          obtain ⟨c1, h1, hb1⟩ := write_sector_emulated_ok_trace d ps ss s
            (addr / ss) (addr % ss) (src.take (min (ss - addr % ss) size))
            (by rw [hws])
          rw [hws] at h1
          have hassoc2 : addr + (min (ss - addr % ss) size + k')
              = addr + min (ss - addr % ss) size + k' := by omega
          refine ⟨min (ss - addr % ss) size + k', by omega, ?_,
            c1 ++ pre', cfail, ?_, hcf, by rw [hassoc2]; exact hsec', ?_⟩
          · intro i hi
            have hassoc : addr + (min (ss - addr % ss) size + k')
                = addr + min (ss - addr % ss) size + k' := by omega
            rw [hassoc] at hi
            have hrec := hframe' i hi
            rw [hrec, hsmem]
            have hunfold : emulApply ss (min (ss - addr % ss) size + k') s.mem src
                addr (min (ss - addr % ss) size + k')
                = emulApply ss k'
                    (storeBytes s.mem (addr / ss * ss)
                      (storeBytes (loadBytes s.mem (addr / ss * ss) ss) (addr % ss)
                        (src.take (min (ss - addr % ss) size))))
                    (src.drop (min (ss - addr % ss) size))
                    (addr + min (ss - addr % ss) size) k' := by
              obtain ⟨m, hm⟩ : ∃ m, min (ss - addr % ss) size + k' = m + 1 :=
                ⟨min (ss - addr % ss) size + k' - 1, by omega⟩
              rw [hm, emulApply]
              have hm1 : ¬(m + 1 = 0) := by omega
              simp only [hm1, if_false]
              have hch : min (ss - addr % ss) (m + 1) = min (ss - addr % ss) size := by
                omega
              rw [hch]
              have hsz2 : m + 1 - min (ss - addr % ss) size = k' := by omega
              rw [hsz2]
              exact emulApply_fuel ss hss m k' _ _ _ k' (by omega) (le_refl k')
            rw [hunfold]
          · rw [htr', h1]
            simp
          · intro c hc
            rcases List.mem_append.mp hc with hc | hc
            · exact hb1 c hc
            · exact hpre' c hc

/-! ### Claims -/

/-- C3: for every geometry and every read, write, or erase request whose
byte range exceeds the capacity (`address + length > capacity`) or whose
address addition overflows the 32-bit address type, the operation fails with
the OutOfRange error (modelling `-EOVERFLOW`) and no backend call is issued:
the state, trace included, is returned unchanged. -/
theorem mtd_out_of_range_rejected (s : MtdState) (d : mtd_desc)
    (hd : s.dev.driver = some d) (hready : s.dev.init_state = .ready)
    (addr count : Nat)
    (hoob : s.dev.capacity < addr + count ∨ addrBound ≤ addr + count) :
    mtd_read s addr count = (.error .OutOfRange, s) ∧
    (∀ src : List Nat, mtd_write s src addr count = (.error .OutOfRange, s)) ∧
    mtd_erase s addr count = (.error .OutOfRange, s) := by
  have hb : outOfBounds s.dev addr count = true := by
    rw [outOfBounds]
    rcases hoob with h | h <;> simp [h]
  refine ⟨?_, fun src => ?_, ?_⟩
  · simp [mtd_read, hd, hready, hb]
  · simp [mtd_write, hd, hready, hb]
  · simp [mtd_erase, hd, hready, hb]

/-- Witness for C3: on the 512-byte device, reading 100 bytes at address 500
fails OutOfRange with the state untouched. -/
theorem mtd_out_of_range_rejected_witness :
    (st256.dev.capacity < 500 + 100 ∨ addrBound ≤ 500 + 100) ∧
    mtd_read st256 500 100 = (.error .OutOfRange, st256) :=
  ⟨Or.inl (by decide),
   (mtd_out_of_range_rejected st256 okDesc rfl rfl 500 100 (Or.inl (by decide))).1⟩

/-- C4 counterexample: an erase request that is both misaligned
(`addr % sector_size ≠ 0`) and out of range fails with OutOfRange, not
Misaligned, because the Bounds Validator runs before the alignment check
(spec section 2 data flow): on the 16-byte device with sector_size 4,
`mtd_erase 1 16` is misaligned yet returns OutOfRange. -/
theorem mtd_erase_misaligned_counterexample :
    (1 % stE.dev.sector_size ≠ 0) ∧
    (mtd_erase stE 1 16).1 = .error .OutOfRange ∧
    MtdError.OutOfRange ≠ MtdError.Misaligned :=
  ⟨by decide, rfl, by decide⟩

/-- C4 (amended): every in-range erase request with
`address % sector_size ≠ 0` or `length % sector_size ≠ 0` fails with the
Misaligned error and no backend call is issued (state unchanged). -/
theorem mtd_erase_misaligned (s : MtdState) (d : mtd_desc)
    (hd : s.dev.driver = some d) (hready : s.dev.init_state = .ready)
    (addr count : Nat)
    (hin : addr + count ≤ s.dev.capacity ∧ addr + count < addrBound)
    (hmis : addr % s.dev.sector_size ≠ 0 ∨ count % s.dev.sector_size ≠ 0) :
    mtd_erase s addr count = (.error .Misaligned, s) := by
  have hb : outOfBounds s.dev addr count = false := by
    rw [outOfBounds]
    simp only [Bool.or_eq_false_iff, decide_eq_false_iff_not, not_lt, not_le]
    omega
  simp [mtd_erase, hd, hready, hb, hmis]

/-- Witness for C4 (amended): erasing 4 bytes at address 1 on the 16-byte
device with sector_size 4 fails Misaligned. -/
theorem mtd_erase_misaligned_witness :
    (1 % stE.dev.sector_size ≠ 0 ∨ 4 % stE.dev.sector_size ≠ 0) ∧
    mtd_erase stE 1 4 = (.error .Misaligned, stE) :=
  ⟨Or.inl (by decide),
   mtd_erase_misaligned stE okDesc rfl rfl 1 4 ⟨by decide, by decide⟩
     (Or.inl (by decide))⟩

/-- C5: a successfully constructed device satisfies
`sector_size = page_size * pages_per_sector` and
`capacity = sector_size * sector_count`, its three base geometry fields are
non-zero, and no operation of the layer ever mutates the geometry fields
(the data operations return the device handle unchanged; `mtd_init` changes
only the lifecycle state). -/
theorem mtd_geometry_invariants :
    (∀ (drv : mtd_desc) (sc pps ps : Nat) (work : Bool) (dev : mtd_dev_t),
      mk_mtd_dev drv sc pps ps work = .ok dev →
      dev.sector_size = dev.page_size * dev.pages_per_sector ∧
      dev.capacity = dev.sector_size * dev.sector_count ∧
      dev.page_size ≠ 0 ∧ dev.pages_per_sector ≠ 0 ∧ dev.sector_count ≠ 0) ∧
    (∀ (s : MtdState) (addr count page offset size sector num : Nat)
       (src : List Nat) (p : mtd_power_state),
      ((mtd_read s addr count).2).dev = s.dev ∧
      ((mtd_read_page s page offset size).2).dev = s.dev ∧
      ((mtd_write s src addr count).2).dev = s.dev ∧
      ((mtd_write_page_raw s src page offset size).2).dev = s.dev ∧
      ((mtd_write_page s src page offset size).2).dev = s.dev ∧
      ((mtd_erase s addr count).2).dev = s.dev ∧
      ((mtd_erase_sector s sector num).2).dev = s.dev ∧
      ((mtd_power s p).2).dev = s.dev ∧
      ((mtd_init s).2).dev.page_size = s.dev.page_size ∧
      ((mtd_init s).2).dev.pages_per_sector = s.dev.pages_per_sector ∧
      ((mtd_init s).2).dev.sector_count = s.dev.sector_count) := by
  constructor
  · intro drv sc pps ps work dev hmk
    rw [mk_mtd_dev] at hmk
    split at hmk
    · cases hmk
    · rename_i hcond
      cases hmk
      push_neg at hcond
      exact ⟨rfl, rfl, hcond.2.2, hcond.2.1, hcond.1⟩
  · intro s addr count page offset size sector num src p
    exact ⟨mtd_read_dev s addr count, mtd_read_page_dev s page offset size,
      mtd_write_dev s src addr count, mtd_write_page_raw_dev s src page offset size,
      mtd_write_page_dev s src page offset size, mtd_erase_dev s addr count,
      mtd_erase_sector_dev s sector num, mtd_power_dev s p,
      (mtd_init_geometry s).1, (mtd_init_geometry s).2.1, (mtd_init_geometry s).2.2⟩

/-- Witness for C5: construction at geometry (4, 2, 2) succeeds and yields
non-zero fields, and a concrete read leaves the device handle unchanged. -/
theorem mtd_geometry_invariants_witness :
    (mk_mtd_dev okDesc 4 2 2 true = .ok devC5 ∧ devC5.page_size ≠ 0) ∧
    ((mtd_read stE 0 4).2).dev = stE.dev :=
  ⟨⟨rfl, (mtd_geometry_invariants.1 okDesc 4 2 2 true devC5 rfl).2.2.1⟩,
   (mtd_geometry_invariants.2 stE 0 4 0 0 0 0 0 [] .MTD_POWER_UP).1⟩

/-- C8: on a device handle whose lifecycle state is not Ready (init not
called or failed), `mtd_power` fails with the NotReady error and issues no
backend power call (state, trace included, unchanged). -/
theorem mtd_power_not_ready (s : MtdState) (d : mtd_desc)
    (hd : s.dev.driver = some d) (h : s.dev.init_state ≠ .ready)
    (p : mtd_power_state) :
    mtd_power s p = (.error .NotReady, s) := by
  simp [mtd_power, hd, h]

/-- Witness for C8: powering up the uninitialized device fails NotReady. -/
theorem mtd_power_not_ready_witness :
    stU.dev.init_state ≠ .ready ∧
    mtd_power stU .MTD_POWER_UP = (.error .NotReady, stU) :=
  ⟨by decide, mtd_power_not_ready stU okDesc rfl (by decide) .MTD_POWER_UP⟩

/-- C10: every public operation of the layer, given a device handle with a
NULL driver descriptor, fails with NoDev (modelling `-ENODEV`) and issues
no backend call (state, trace included, unchanged). -/
theorem mtd_nodev_all_ops (s : MtdState) (h : s.dev.driver = none)
    (addr count page offset size sector num : Nat) (src : List Nat)
    (p : mtd_power_state) :
    mtd_read s addr count = (.error .NoDev, s) ∧
    mtd_read_page s page offset size = (.error .NoDev, s) ∧
    mtd_write s src addr count = (.error .NoDev, s) ∧
    mtd_write_page_raw s src page offset size = (.error .NoDev, s) ∧
    mtd_write_page s src page offset size = (.error .NoDev, s) ∧
    mtd_erase s addr count = (.error .NoDev, s) ∧
    mtd_erase_sector s sector num = (.error .NoDev, s) ∧
    mtd_power s p = (.error .NoDev, s) := by
  refine ⟨?_, ?_, ?_, ?_, ?_, ?_, ?_, ?_⟩
  · simp [mtd_read, h]
  · simp [mtd_read_page, h]
  · simp [mtd_write, h]
  · simp [mtd_write_page_raw, h]
  · simp [mtd_write_page, h]
  · simp [mtd_erase, h]
  · simp [mtd_erase_sector, h]
  · simp [mtd_power, h]

/-- Witness for C10: on the NULL-driver device, a concrete read and a
concrete power call both fail NoDev with the state unchanged. -/
theorem mtd_nodev_all_ops_witness :
    stNull.dev.driver = none ∧
    mtd_read stNull 0 4 = (.error .NoDev, stNull) ∧
    mtd_power stNull .MTD_POWER_UP = (.error .NoDev, stNull) := by
  have h := mtd_nodev_all_ops stNull rfl 0 4 0 0 0 0 0 [] .MTD_POWER_UP
  exact ⟨rfl, h.1, h.2.2.2.2.2.2.2⟩

/-- C1: the raw write path (`mtd_write` and `mtd_write_page_raw`) splits
every request at page boundaries: each backend write call it issues is
non-empty and lies entirely within one page
(`addr % page_size + size ≤ page_size`); in particular, writing 300 bytes at
address 100 on a device with page_size 256 issues exactly two backend write
calls, 156 bytes at address 100 (page 0, in-page offset 100) and 144 bytes
at address 256 (page 1, in-page offset 0). -/
theorem mtd_write_splits_at_page_boundaries :
    (∀ (s : MtdState) (src : List Nat) (addr count : Nat),
      0 < s.dev.page_size →
      ∃ calls : List BackendCall,
        ((mtd_write s src addr count).2).trace = s.trace ++ calls ∧
        ∀ c ∈ calls, ∃ a n, c = .write a n ∧ 0 < n ∧
          a % s.dev.page_size + n ≤ s.dev.page_size) ∧
    (∀ (s : MtdState) (src : List Nat) (page offset size : Nat),
      0 < s.dev.page_size →
      ∃ calls : List BackendCall,
        ((mtd_write_page_raw s src page offset size).2).trace = s.trace ++ calls ∧
        ∀ c ∈ calls, ∃ a n, c = .write a n ∧ 0 < n ∧
          a % s.dev.page_size + n ≤ s.dev.page_size) ∧
    ((mtd_write st256 (List.replicate 300 0) 100 300).1 = .ok () ∧
     ((mtd_write st256 (List.replicate 300 0) 100 300).2).trace
       = [.write 100 156, .write 256 144] ∧
     100 / 256 = 0 ∧ 100 % 256 = 100 ∧ 256 / 256 = 1 ∧ 256 % 256 = 0) := by
  refine ⟨?_, ?_, rfl, rfl, rfl, rfl, rfl, rfl⟩
  · intro s src addr count hps
    rw [mtd_write]
    split
    · exact ⟨[], by simp, by simp⟩
    · rename_i d hdrv
      split
      · exact ⟨[], by simp, by simp⟩
      · split
        · exact ⟨[], by simp, by simp⟩
        · obtain ⟨calls, htr, _, _, hcalls⟩ :=
            write_raw_go_calls d s.dev.page_size hps count s src addr count
          exact ⟨calls, htr, hcalls⟩
  · intro s src page offset size hps
    rw [mtd_write_page_raw]
    split
    · exact ⟨[], by simp, by simp⟩
    · rename_i d hdrv
      split
      · exact ⟨[], by simp, by simp⟩
      · rw [write_page_raw_core]
        split
        · exact ⟨[], by simp, by simp⟩
        · split
          · exact ⟨[], by simp, by simp⟩
          · obtain ⟨calls, htr, _, _, hcalls⟩ :=
              write_raw_go_calls d s.dev.page_size hps size s src
                (page * s.dev.page_size + offset) size
            exact ⟨calls, htr, hcalls⟩

/-- Witness for C1: the universally quantified parts applied to the 256-byte
page device. -/
theorem mtd_write_splits_at_page_boundaries_witness :
    (∃ calls : List BackendCall,
      ((mtd_write st256 (List.replicate 300 0) 100 300).2).trace
        = st256.trace ++ calls ∧
      ∀ c ∈ calls, ∃ a n, c = .write a n ∧ 0 < n ∧
        a % st256.dev.page_size + n ≤ st256.dev.page_size) ∧
    (∃ calls : List BackendCall,
      ((mtd_write_page_raw st256 (List.replicate 300 0) 0 100 300).2).trace
        = st256.trace ++ calls ∧
      ∀ c ∈ calls, ∃ a n, c = .write a n ∧ 0 < n ∧
        a % st256.dev.page_size + n ≤ st256.dev.page_size) :=
  ⟨mtd_write_splits_at_page_boundaries.1 st256 (List.replicate 300 0) 100 300
     (by decide),
   mtd_write_splits_at_page_boundaries.2.1 st256 (List.replicate 300 0) 0 100 300
     (by decide)⟩

/-- C6: on a driver whose flags include MTD_DRIVER_FLAG_DIRECT_WRITE,
`mtd_write_page` behaves exactly as the raw path `mtd_write_page_raw` on the
same arguments (same result, same final state, hence the same backend call
sequence), and every backend call it issues is a write (no erase, no
scratch-buffer read). -/
theorem mtd_write_page_direct_write (s : MtdState) (d : mtd_desc)
    (hd : s.dev.driver = some d)
    (hflag : d.flags &&& MTD_DRIVER_FLAG_DIRECT_WRITE ≠ 0)
    (src : List Nat) (page offset size : Nat) :
    mtd_write_page s src page offset size
      = mtd_write_page_raw s src page offset size ∧
    ∃ calls : List BackendCall,
      ((mtd_write_page s src page offset size).2).trace = s.trace ++ calls ∧
      ∀ c ∈ calls, ∃ a n, c = .write a n := by
  constructor
  · by_cases hready : s.dev.init_state ≠ .ready
    · simp [mtd_write_page, mtd_write_page_raw, hd, hready]
    · simp [mtd_write_page, mtd_write_page_raw, hd, hready, hflag]
  · rw [mtd_write_page]
    simp only [hd, hflag, if_true]
    split
    · exact ⟨[], by simp, by simp⟩
    · rw [write_page_raw_core]
      split
      · exact ⟨[], by simp, by simp⟩
      · split
        · exact ⟨[], by simp, by simp⟩
        · exact write_raw_go_writes d s.dev.page_size size s src
            (page * s.dev.page_size + offset) size

/-- Witness for C6: on the direct-write device, a concrete emulated write
delegates to the raw path. -/
theorem mtd_write_page_direct_write_witness :
    mtd_write_page stDirect [9, 9] 0 1 2 = mtd_write_page_raw stDirect [9, 9] 0 1 2 ∧
    ∃ calls : List BackendCall,
      ((mtd_write_page stDirect [9, 9] 0 1 2).2).trace = stDirect.trace ++ calls ∧
      ∀ c ∈ calls, ∃ a n, c = .write a n :=
  mtd_write_page_direct_write stDirect directDesc rfl (by decide) [9, 9] 0 1 2

/-- C7: a valid in-range sector erase first attempts a single bulk backend
sector-erase call; if the backend reports success or any error other than
Unsupported, that is the only backend call and the result is passed through
unchanged; if and only if the bulk call fails Unsupported does the path fall
back to a loop of one-sector calls over the same range, which aborts at the
first per-sector failure with that error, with no further retry. -/
theorem mtd_erase_sector_bulk_then_fallback (s : MtdState) (d : mtd_desc)
    (hd : s.dev.driver = some d) (hready : s.dev.init_state = .ready)
    (hcap : d.has_erase_sector = true) (sector num : Nat)
    (hin : sector + num ≤ s.dev.sector_count ∧ sector + num < addrBound) :
    (d.fault (.erase_sector sector num) = none →
      (mtd_erase_sector s sector num).1 = .ok () ∧
      ((mtd_erase_sector s sector num).2).trace
        = s.trace ++ [.erase_sector sector num]) ∧
    (∀ e, d.fault (.erase_sector sector num) = some e → e ≠ .Unsupported →
      (mtd_erase_sector s sector num).1 = .error e ∧
      ((mtd_erase_sector s sector num).2).trace
        = s.trace ++ [.erase_sector sector num]) ∧
    (d.fault (.erase_sector sector num) = some .Unsupported →
      ∃ j, j ≤ num ∧
        (∀ i, i < j → d.fault (.erase_sector (sector + i) 1) = none) ∧
        (((mtd_erase_sector s sector num).1 = .ok () ∧ j = num ∧
          ((mtd_erase_sector s sector num).2).trace
            = s.trace ++ .erase_sector sector num :: sectorCalls sector num) ∨
         (j < num ∧ ∃ e2, d.fault (.erase_sector (sector + j) 1) = some e2 ∧
          (mtd_erase_sector s sector num).1 = .error e2 ∧
          ((mtd_erase_sector s sector num).2).trace
            = s.trace ++ .erase_sector sector num :: sectorCalls sector (j + 1)))) := by
  have hnb : ¬(s.dev.sector_count < sector + num ∨ addrBound ≤ sector + num) := by
    omega
  have hred : mtd_erase_sector s sector num
      = do_erase_sector d s.dev.sector_size s sector num := by
    simp [mtd_erase_sector, hd, hready, hnb]
  refine ⟨?_, ?_, ?_⟩
  · intro hf
    rw [hred, do_erase_sector_bulk_ok d s.dev.sector_size s sector num hcap hf]
    exact ⟨rfl, rfl⟩
  · intro e hf hne
    rw [hred, do_erase_sector_bulk_error d s.dev.sector_size s sector num e hcap hf hne]
    exact ⟨rfl, rfl⟩
  · intro hf
    rw [hred, do_erase_sector_bulk_unsupported d s.dev.sector_size s sector num hcap hf]
    obtain ⟨_, j, hj, hnone, hcases⟩ := erase_go_spec d s.dev.sector_size hcap num
      { s with trace := s.trace ++ [.erase_sector sector num] } sector num (le_refl num)
    refine ⟨j, hj, hnone, ?_⟩
    rcases hcases with ⟨hok, hjeq, htr, _⟩ | ⟨hlt, e2, hfj, herr, htr, _⟩
    · refine Or.inl ⟨hok, hjeq, ?_⟩
      rw [htr]
      simp
    · refine Or.inr ⟨hlt, e2, hfj, herr, ?_⟩
      rw [htr]
      simp

/-- Witness for C7: on the bulk-erase-unsupported device, erasing sectors 0
and 1 falls back to two one-sector calls. -/
theorem mtd_erase_sector_bulk_then_fallback_witness :
    ∃ j, j ≤ 2 ∧
      (∀ i, i < j → bulkUnsupDesc.fault (.erase_sector (0 + i) 1) = none) ∧
      (((mtd_erase_sector stBulk 0 2).1 = .ok () ∧ j = 2 ∧
        ((mtd_erase_sector stBulk 0 2).2).trace
          = stBulk.trace ++ .erase_sector 0 2 :: sectorCalls 0 2) ∨
       (j < 2 ∧ ∃ e2, bulkUnsupDesc.fault (.erase_sector (0 + j) 1) = some e2 ∧
        (mtd_erase_sector stBulk 0 2).1 = .error e2 ∧
        ((mtd_erase_sector stBulk 0 2).2).trace
          = stBulk.trace ++ .erase_sector 0 2 :: sectorCalls 0 (j + 1))) :=
  (mtd_erase_sector_bulk_then_fallback stBulk bulkUnsupDesc rfl rfl rfl 0 2
    ⟨by decide, by decide⟩).2.2 rfl

/-- C2: on a driver without MTD_DRIVER_FLAG_DIRECT_WRITE, a successful
emulated write (`mtd_write_page`) of length `size` whose byte range lies
within one sector (in-sector offset `k = (page*page_size+offset) % sector_size`)
leaves every byte of that sector outside `[k, k+size)` with the value it had
before the operation: the full-sector read into the scratch buffer is
written back around the new bytes. -/
theorem mtd_write_page_frame (s : MtdState) (d : mtd_desc)
    (hd : s.dev.driver = some d) (hready : s.dev.init_state = .ready)
    (hflag : d.flags &&& MTD_DRIVER_FLAG_DIRECT_WRITE = 0)
    (hps : 0 < s.dev.page_size) (hpps : 0 < s.dev.pages_per_sector)
    (hmemlen : s.mem.length = s.dev.capacity)
    (src : List Nat) (page offset size : Nat)
    (hone : (page * s.dev.page_size + offset) % s.dev.sector_size + size
      ≤ s.dev.sector_size)
    (hok : (mtd_write_page s src page offset size).1 = .ok ()) :
    ∀ i, i < s.dev.sector_size →
      (i < (page * s.dev.page_size + offset) % s.dev.sector_size ∨
       (page * s.dev.page_size + offset) % s.dev.sector_size + size ≤ i) →
      ((mtd_write_page s src page offset size).2).mem.getD
        ((page * s.dev.page_size + offset) / s.dev.sector_size
          * s.dev.sector_size + i) eraseValue
        = s.mem.getD ((page * s.dev.page_size + offset) / s.dev.sector_size
            * s.dev.sector_size + i) eraseValue := by
  intro i hi hout
  have hss : 0 < s.dev.sector_size := by
    rw [mtd_dev_t.sector_size]
    exact Nat.mul_pos hps hpps
  rw [mtd_write_page] at hok ⊢
  simp only [hd] at hok ⊢
  have h1 : ¬(s.dev.init_state ≠ InitState.ready) := by
    simp [hready]
  rw [if_neg h1] at hok ⊢
  have h2 : ¬(d.flags &&& MTD_DRIVER_FLAG_DIRECT_WRITE ≠ 0) := by
    simp [hflag]
  rw [if_neg h2] at hok ⊢
  by_cases hw : s.dev.work_area = false
  · rw [if_pos hw] at hok
    exact absurd hok (by simp)
  · rw [if_neg hw] at hok ⊢
    by_cases ho : s.dev.page_size ≤ offset
    · rw [if_pos ho] at hok
      exact absurd hok (by simp)
    · rw [if_neg ho] at hok ⊢
      by_cases hb : outOfBounds s.dev (page * s.dev.page_size + offset) size = true
      · rw [if_pos hb] at hok
        exact absurd hok (by simp)
      · rw [if_neg hb] at hok ⊢
        by_cases hsz : size = 0
        · subst hsz
          rw [write_page_go_zero]
        · have hinrange : page * s.dev.page_size + offset + size
              ≤ s.dev.capacity := by
            simp only [outOfBounds, Bool.or_eq_true, decide_eq_true_eq,
              not_or] at hb
            omega
          have hcapeq : s.dev.capacity = s.dev.sector_size * s.dev.sector_count :=
            rfl
          have h3 : (page * s.dev.page_size + offset) / s.dev.sector_size
              < s.dev.sector_count := by
            rw [Nat.div_lt_iff_lt_mul hss]
            have hcomm : s.dev.sector_count * s.dev.sector_size
                = s.dev.sector_size * s.dev.sector_count := Nat.mul_comm _ _
            omega
          have h4 : ((page * s.dev.page_size + offset) / s.dev.sector_size + 1)
              * s.dev.sector_size ≤ s.dev.sector_count * s.dev.sector_size :=
            Nat.mul_le_mul_right _ (Nat.succ_le_of_lt h3)
          have h5 : ((page * s.dev.page_size + offset) / s.dev.sector_size + 1)
              * s.dev.sector_size
              = (page * s.dev.page_size + offset) / s.dev.sector_size
                * s.dev.sector_size + s.dev.sector_size := by
            ring
          have hcomm2 : s.dev.sector_count * s.dev.sector_size
              = s.dev.sector_size * s.dev.sector_count := Nat.mul_comm _ _
          exact write_page_go_single_frame d s.dev.page_size s.dev.sector_size hps
            hss s src (page * s.dev.page_size + offset) size hone (by omega)
            hok i hi hout

/-- Witness for C2: on the 16-byte device (sector_size 4, content 0..15),
the successful emulated write of 2 bytes at page 0, offset 1 leaves bytes 0
and 3 of sector 0 unchanged. -/
theorem mtd_write_page_frame_witness :
    (mtd_write_page stE [90, 91] 0 1 2).1 = .ok () ∧
    ((mtd_write_page stE [90, 91] 0 1 2).2).mem.getD 0 eraseValue
      = stE.mem.getD 0 eraseValue ∧
    ((mtd_write_page stE [90, 91] 0 1 2).2).mem.getD 3 eraseValue
      = stE.mem.getD 3 eraseValue := by
  have h := mtd_write_page_frame stE okDesc rfl rfl (by decide) (by decide)
    (by decide) (by decide) [90, 91] 0 1 2 (by decide) rfl
  exact ⟨rfl, h 0 (by decide) (Or.inl (by decide)), h 3 (by decide)
    (Or.inr (by decide))⟩

/-- C9 counterexample: a multi-step operation in which a backend sub-call
fails does NOT always stop at that sub-call and return its error: on a
backend whose bulk erase fails Unsupported, `mtd_erase` over two sectors
issues the bulk call (which fails), then continues with the per-sector
fallback and returns success. -/
theorem mtd_multi_step_first_failure_counterexample :
    bulkUnsupDesc.fault (.erase_sector 0 2) = some .Unsupported ∧
    ((mtd_erase stBulk 0 8).2).trace
      = [.erase_sector 0 2, .erase_sector 0 1, .erase_sector 1 1] ∧
    (mtd_erase stBulk 0 8).1 = .ok () :=
  ⟨rfl, rfl, rfl⟩

/-- C9 (amended): for every multi-step operation (split read, split raw
write, multi-sector erase, multi-sector emulated write) in which a backend
sub-call fails, the operation stops at the first failing sub-call and
returns that sub-call's error unchanged — except that a bulk sector-erase
call failing `Unsupported` triggers the one-time per-sector fallback instead
of aborting (every earlier issued call either succeeded or was such a bulk
call) — and completed sub-steps are not undone: a failed read leaves memory
untouched, a failed raw write retains the completed page chunks, a failed
erase retains the sectors already erased, and in the emulated write path the
sectors fully committed before the failing sector remain in their new
state. -/
theorem mtd_multi_step_first_failure :
    (∀ (s : MtdState) (d : mtd_desc) (addr count : Nat) (e : MtdError),
      s.dev.driver = some d → s.dev.init_state = .ready →
      0 < s.dev.page_size → d.has_read = true →
      outOfBounds s.dev addr count = false →
      (mtd_read s addr count).1 = .error e →
      ((mtd_read s addr count).2).mem = s.mem ∧
      ∃ pre cfail, ((mtd_read s addr count).2).trace = s.trace ++ (pre ++ [cfail]) ∧
        d.fault cfail = some e ∧ ∀ c ∈ pre, d.fault c = none) ∧
    (∀ (s : MtdState) (d : mtd_desc) (src : List Nat) (addr count : Nat)
       (e : MtdError),
      s.dev.driver = some d → s.dev.init_state = .ready →
      0 < s.dev.page_size → d.has_write = true → count ≤ src.length →
      outOfBounds s.dev addr count = false →
      (mtd_write s src addr count).1 = .error e →
      ∃ pre cfail,
        ((mtd_write s src addr count).2).trace = s.trace ++ (pre ++ [cfail]) ∧
        d.fault cfail = some e ∧ (∀ c ∈ pre, d.fault c = none) ∧
        ((mtd_write s src addr count).2).mem
          = storeBytes s.mem addr (src.take (writtenBytes pre)) ∧
        ∃ n, 0 < n ∧ cfail = .write (addr + writtenBytes pre) n ∧
          writtenBytes pre + n ≤ count) ∧
    (∀ (s : MtdState) (d : mtd_desc) (sector num : Nat) (e : MtdError),
      s.dev.driver = some d → s.dev.init_state = .ready →
      d.has_erase_sector = true →
      sector + num ≤ s.dev.sector_count → sector + num < addrBound →
      (mtd_erase_sector s sector num).1 = .error e →
      ∃ pre cfail,
        ((mtd_erase_sector s sector num).2).trace = s.trace ++ (pre ++ [cfail]) ∧
        d.fault cfail = some e ∧ (∀ c ∈ pre, benignSubCall d c) ∧
        ((pre = [] ∧ cfail = .erase_sector sector num ∧
          ((mtd_erase_sector s sector num).2).mem = s.mem) ∨
         (∃ j, j < num ∧ pre = .erase_sector sector num :: sectorCalls sector j ∧
          cfail = .erase_sector (sector + j) 1 ∧
          d.fault (.erase_sector sector num) = some .Unsupported ∧
          (∀ i, i < j → d.fault (.erase_sector (sector + i) 1) = none) ∧
          ((mtd_erase_sector s sector num).2).mem
            = storeBytes s.mem (sector * s.dev.sector_size)
                (List.replicate (j * s.dev.sector_size) eraseValue)))) ∧
    (∀ (s : MtdState) (d : mtd_desc) (src : List Nat) (page offset size : Nat)
       (e : MtdError),
      s.dev.driver = some d → s.dev.init_state = .ready →
      0 < s.dev.page_size → 0 < s.dev.sector_size →
      d.flags &&& MTD_DRIVER_FLAG_DIRECT_WRITE = 0 → s.dev.work_area = true →
      d.has_read = true → d.has_write = true → d.has_erase_sector = true →
      ¬ s.dev.page_size ≤ offset →
      outOfBounds s.dev (page * s.dev.page_size + offset) size = false →
      (mtd_write_page s src page offset size).1 = .error e →
      ∃ k, k ≤ size ∧
        (∀ i, i < (page * s.dev.page_size + offset + k) / s.dev.sector_size
            * s.dev.sector_size →
          ((mtd_write_page s src page offset size).2).mem.getD i eraseValue
            = (emulApply s.dev.sector_size k s.mem src
                (page * s.dev.page_size + offset) k).getD i eraseValue) ∧
        ∃ pre cfail, ((mtd_write_page s src page offset size).2).trace
            = s.trace ++ (pre ++ [cfail]) ∧
          d.fault cfail = some e ∧
          (page * s.dev.page_size + offset + k) / s.dev.sector_size
            = sectorOfCall s.dev.sector_size cfail ∧
          ∀ c ∈ pre, benignSubCall d c) := by
  refine ⟨?_, ?_, ?_, ?_⟩
  · intro s d addr count e hd hready hps hcr hb herr
    have hred : mtd_read s addr count
        = read_go d s.dev.page_size count s addr count [] := by
      simp [mtd_read, hd, hready, hb]
    rw [hred] at herr ⊢
    obtain ⟨pre, cfail, htr, hpre, hcf, _⟩ :=
      read_go_error d s.dev.page_size hps hcr count s addr count [] e herr
    exact ⟨(read_go_state d s.dev.page_size count s addr count []).1,
      pre, cfail, htr, hcf, hpre⟩
  · intro s d src addr count e hd hready hps hcw hsrc hb herr
    have hred : mtd_write s src addr count
        = write_raw_go d s.dev.page_size count s src addr count := by
      simp [mtd_write, hd, hready, hb]
    rw [hred] at herr ⊢
    obtain ⟨pre, cfail, htr, hpre, hcf, hmem, hn, _⟩ :=
      write_raw_go_error d s.dev.page_size hps hcw count s src addr count e hsrc herr
    exact ⟨pre, cfail, htr, hcf, hpre, hmem, hn⟩
  · intro s d sector num e hd hready hce hin1 hin2 herr
    have hnb : ¬(s.dev.sector_count < sector + num ∨ addrBound ≤ sector + num) := by
      omega
    have hred : mtd_erase_sector s sector num
        = do_erase_sector d s.dev.sector_size s sector num := by
      simp [mtd_erase_sector, hd, hready, hnb]
    rw [hred] at herr ⊢
    obtain ⟨_, pre, cfail, htr, hcf, hpre, hpin⟩ :=
      do_erase_sector_error d s.dev.sector_size s sector num e hce herr
    exact ⟨pre, cfail, htr, hcf, hpre, hpin⟩
  · intro s d src page offset size e hd hready hps hss hflag hwork hcr hcw hce
      ho hb herr
    have h1 : ¬(s.dev.init_state ≠ InitState.ready) := by
      simp [hready]
    have h2 : ¬(d.flags &&& MTD_DRIVER_FLAG_DIRECT_WRITE ≠ 0) := by
      simp [hflag]
    have h3 : ¬(s.dev.work_area = false) := by
      simp [hwork]
    have hred : mtd_write_page s src page offset size
        = write_page_go d s.dev.page_size s.dev.sector_size size s src
            (page * s.dev.page_size + offset) size := by
      rw [mtd_write_page]
      simp only [hd]
      rw [if_neg h1, if_neg h2, if_neg h3, if_neg ho, if_neg (by simp [hb])]
    rw [hred] at herr ⊢
    exact write_page_go_error d s.dev.page_size s.dev.sector_size hps hss hcr hcw
      hce size s src (page * s.dev.page_size + offset) size e (le_refl size) herr

/-- Witness for C9 (amended): all four parts applied to concrete failing
backends — a read failing at address 2, a raw write failing after committed
chunks counted from the issued write calls, a per-sector erase failing at a
pinned sector after the bulk call fell back, and an emulated write whose
failing backend call addresses the pinned failing sector. -/
theorem mtd_multi_step_first_failure_witness :
    (((mtd_read stFailR 0 8).2).mem = stFailR.mem ∧
     ∃ pre cfail, ((mtd_read stFailR 0 8).2).trace = stFailR.trace ++ (pre ++ [cfail]) ∧
       failReadDesc.fault cfail = some .IOError ∧
       ∀ c ∈ pre, failReadDesc.fault c = none) ∧
    (∃ pre cfail,
      ((mtd_write stFailW (List.replicate 8 7) 0 8).2).trace
        = stFailW.trace ++ (pre ++ [cfail]) ∧
      failWriteDesc.fault cfail = some .IOError ∧
      (∀ c ∈ pre, failWriteDesc.fault c = none) ∧
      ((mtd_write stFailW (List.replicate 8 7) 0 8).2).mem
        = storeBytes stFailW.mem 0 ((List.replicate 8 7).take (writtenBytes pre)) ∧
      ∃ n, 0 < n ∧ cfail = .write (0 + writtenBytes pre) n ∧
        writtenBytes pre + n ≤ 8) ∧
    (∃ pre cfail,
      ((mtd_erase_sector stFailE 0 2).2).trace = stFailE.trace ++ (pre ++ [cfail]) ∧
      failEraseDesc.fault cfail = some .IOError ∧
      (∀ c ∈ pre, benignSubCall failEraseDesc c) ∧
      ((pre = [] ∧ cfail = .erase_sector 0 2 ∧
        ((mtd_erase_sector stFailE 0 2).2).mem = stFailE.mem) ∨
       (∃ j, j < 2 ∧ pre = .erase_sector 0 2 :: sectorCalls 0 j ∧
        cfail = .erase_sector (0 + j) 1 ∧
        failEraseDesc.fault (.erase_sector 0 2) = some .Unsupported ∧
        (∀ i, i < j → failEraseDesc.fault (.erase_sector (0 + i) 1) = none) ∧
        ((mtd_erase_sector stFailE 0 2).2).mem
          = storeBytes stFailE.mem (0 * stFailE.dev.sector_size)
              (List.replicate (j * stFailE.dev.sector_size) eraseValue)))) ∧
    (∃ k, k ≤ 4 ∧
      (∀ i, i < (1 * stFailW.dev.page_size + 0 + k) / stFailW.dev.sector_size
          * stFailW.dev.sector_size →
        ((mtd_write_page stFailW (List.replicate 4 7) 1 0 4).2).mem.getD i eraseValue
          = (emulApply stFailW.dev.sector_size k stFailW.mem (List.replicate 4 7)
              (1 * stFailW.dev.page_size + 0) k).getD i eraseValue) ∧
      ∃ pre cfail, ((mtd_write_page stFailW (List.replicate 4 7) 1 0 4).2).trace
          = stFailW.trace ++ (pre ++ [cfail]) ∧
        failWriteDesc.fault cfail = some .IOError ∧
        (1 * stFailW.dev.page_size + 0 + k) / stFailW.dev.sector_size
          = sectorOfCall stFailW.dev.sector_size cfail ∧
        ∀ c ∈ pre, benignSubCall failWriteDesc c) :=
  ⟨mtd_multi_step_first_failure.1 stFailR failReadDesc 0 8 .IOError rfl rfl
     (by decide) rfl (by decide) rfl,
   mtd_multi_step_first_failure.2.1 stFailW failWriteDesc (List.replicate 8 7) 0 8
     .IOError rfl rfl (by decide) rfl (by decide) (by decide) rfl,
   mtd_multi_step_first_failure.2.2.1 stFailE failEraseDesc 0 2 .IOError rfl rfl
     rfl (by decide) (by decide) rfl,
   mtd_multi_step_first_failure.2.2.2 stFailW failWriteDesc (List.replicate 4 7)
     1 0 4 .IOError rfl rfl (by decide) (by decide) rfl rfl rfl rfl rfl
     (by decide) (by decide) rfl⟩


end Mtd
